import Mathlib

/-!
# Verification of the csvutils struct/CSV mapping library

Shallow embedding of the csvutils Go package: the write path
(`WriteCSV`, `extractHeaders`, `extractValues` and `openOrCreateFile`),
and the read pipeline (`ReadCSV`, `buildFieldInfo`, `processRecord`,
`initNestedPointers`, `getFieldSetter`).

Modelling conventions:
* A Go struct type is a `Fields` value: an ordered sequence of fields, each
  a scalar leaf, a nested struct, or a pointer to a struct.  Pointer-to-scalar
  fields and float64 leaves are outside the model (floating point parse and
  format are not shallow-embeddable); a `Kind.kOther` leaf stands for any Go
  field type that `getFieldSetter` rejects.
* A live record is a `Vals` value shaped like its `Fields`; a nil pointer
  sub-record is the constructor `consPtrNil`.
* Go `reflect` setter closures are defunctionalised: `getFieldSetter`
  validates the kind and `runSetter` is the body of the returned closure.
* The CSV layer (`encoding/csv`) and the worker pool are the external
  collaborators the spec names: a file is a list of rows of strings, and the
  pool is modelled by the trace of tasks submitted to it, executed in
  submission order (`concurrency` is configuration only).
* `strconv.ParseInt` / `ParseBool` and their error strings are modelled
  directly; machine integers are `Int` with the explicit int64 range check.
-/

set_option autoImplicit false

namespace CsvSpec

/-- Scalar field kinds of the Go code: string, the integer kinds, bool, and
`kOther` standing for any Go kind `getFieldSetter` does not support. -/
inductive Kind where
  | kString
  | kInt
  | kBool
  | kOther
  deriving DecidableEq, Repr

/-- A scalar value held by a leaf field. -/
inductive Scalar where
  | str (s : String)
  | int (n : Int)
  | bool (b : Bool)
  deriving DecidableEq, Repr

/-- The kind a scalar value belongs to. -/
def Scalar.kind : Scalar → Kind
  | .str _ => .kString
  | .int _ => .kInt
  | .bool _ => .kBool

/-- The Go zero value of a scalar kind, as a `Scalar`. -/
def zeroOf : Kind → Scalar
  | .kString => .str ""
  | .kInt => .int 0
  | .kBool => .bool false
  | .kOther => .str ""

/-- Shape of a Go struct type: an ordered field list.  Each field carries its
structural name, its `csv` tag (`""` when absent), its `default` tag (`""`
when absent) and is a scalar, a nested struct, or a pointer to a struct. -/
inductive Fields where
  | nil : Fields
  | consScalar (name tag dflt : String) (k : Kind) (rest : Fields) : Fields
  | consStruct (name tag dflt : String) (sub : Fields) (rest : Fields) : Fields
  | consPtr (name tag dflt : String) (sub : Fields) (rest : Fields) : Fields
  deriving DecidableEq, Repr

/-- A record instance shaped like a `Fields`; `consPtrNil` is a nil pointer
sub-record. -/
inductive Vals where
  | nil : Vals
  | consScalar (sv : Scalar) (rest : Vals) : Vals
  | consStruct (sub : Vals) (rest : Vals) : Vals
  | consPtrNil (rest : Vals) : Vals
  | consPtr (sub : Vals) (rest : Vals) : Vals
  deriving DecidableEq, Repr

/-- Number of direct (top-level) fields of a shape: Go `Type.NumField`. -/
def numFields : Fields → Nat
  | .nil => 0
  | .consScalar _ _ _ _ rest => numFields rest + 1
  | .consStruct _ _ _ _ rest => numFields rest + 1
  | .consPtr _ _ _ _ rest => numFields rest + 1

/-- Number of scalar leaves in the depth-first flattening of a shape. -/
def leafCount : Fields → Nat
  | .nil => 0
  | .consScalar _ _ _ _ rest => leafCount rest + 1
  | .consStruct _ _ _ sub rest => leafCount sub + leafCount rest
  | .consPtr _ _ _ sub rest => leafCount sub + leafCount rest

/-- Kinds of the leaves in depth-first, declaration order. -/
def leafKinds : Fields → List Kind
  | .nil => []
  | .consScalar _ _ _ k rest => k :: leafKinds rest
  | .consStruct _ _ _ sub rest => leafKinds sub ++ leafKinds rest
  | .consPtr _ _ _ sub rest => leafKinds sub ++ leafKinds rest

/-- The effective column-name component of a field: the `csv` tag, falling
back to the structural field name when the tag is empty (Go:
`csvTag := field.Tag.Get("csv"); if csvTag == "" { csvTag = field.Name }`). -/
def tagOr (name tag : String) : String :=
  if tag = "" then name else tag

/-- `value matches shape`: the record has exactly the structure of the type. -/
def wellTyped : Fields → Vals → Bool
  | .nil, .nil => true
  | .consScalar _ _ _ k rest, .consScalar sv vrest =>
    sv.kind = k && wellTyped rest vrest
  | .consStruct _ _ _ sub rest, .consStruct vs vrest =>
    wellTyped sub vs && wellTyped rest vrest
  | .consPtr _ _ _ _ rest, .consPtrNil vrest => wellTyped rest vrest
  | .consPtr _ _ _ sub rest, .consPtr vs vrest =>
    wellTyped sub vs && wellTyped rest vrest
  | _, _ => false

/-- No nil pointer sub-record anywhere in the value. -/
def noNilPtr : Vals → Bool
  | .nil => true
  | .consScalar _ rest => noNilPtr rest
  | .consStruct vs rest => noNilPtr vs && noNilPtr rest
  | .consPtrNil _ => false
  | .consPtr vs rest => noNilPtr vs && noNilPtr rest

/-- The Go zero value of a shape: scalar leaves zero, nested structs zeroed
recursively, pointer fields nil (Go `reflect.New(t).Elem()`). -/
def zeroVals : Fields → Vals
  | .nil => .nil
  | .consScalar _ _ _ k rest => .consScalar (zeroOf k) (zeroVals rest)
  | .consStruct _ _ _ sub rest => .consStruct (zeroVals sub) (zeroVals rest)
  | .consPtr _ _ _ _ rest => .consPtrNil (zeroVals rest)

/-! ## Value codec: strconv parse and fmt "%v" formatting -/

/-- The decimal digit character for `d % 10`. -/
def digitChar (d : Nat) : Char :=
  match d with
  | 0 => '0' | 1 => '1' | 2 => '2' | 3 => '3' | 4 => '4'
  | 5 => '5' | 6 => '6' | 7 => '7' | 8 => '8' | _ => '9'

/-- Fueled base-10 rendering of a natural number, most significant digit
first; `fuel ≥ n + 1` is always enough. -/
def natToDecAux : Nat → Nat → List Char → List Char
  | 0, _, acc => acc
  | fuel + 1, n, acc =>
    if n < 10 then digitChar n :: acc
    else natToDecAux fuel (n / 10) (digitChar (n % 10) :: acc)

/-- Base-10 rendering of a natural number (`fmt` / `strconv` decimal form). -/
def natToDec (n : Nat) : String :=
  ⟨natToDecAux (n + 1) n []⟩

/-- Value of a most-significant-first decimal digit list. -/
def digitsToNat (l : List Char) : Nat :=
  l.foldl (fun a c => a * 10 + (c.toNat - 48)) 0

/-- Go quoting of a string inside a strconv error (`%q`); the strings this
development touches need no escaping. -/
def goQuote (s : String) : String :=
  "\"" ++ s ++ "\""

/-- Sign stripping of `strconv.ParseInt`: leading `-` or `+` removed, the
flag recording a leading `-`. -/
def parseSign (cs : List Char) : Bool × List Char :=
  match cs with
  | c :: r =>
    if c = '-' then (true, r)
    else if c = '+' then (false, r)
    else (false, c :: r)
  | [] => (false, [])

/-- `strconv.ParseInt(s, 10, 64)`: optional sign, decimal digits, int64 range
check, with the strconv error strings. -/
def goParseInt (s : String) : Except String Int :=
  let neg := (parseSign s.data).1
  let ds := (parseSign s.data).2
  if ds = [] ∨ ¬ ds.all Char.isDigit then
    .error ("strconv.ParseInt: parsing " ++ goQuote s ++ ": invalid syntax")
  else
    let v : Int := if neg then -(digitsToNat ds : Int) else (digitsToNat ds : Int)
    if v < -(2 ^ 63) ∨ (2 ^ 63 - 1 : Int) < v then
      .error ("strconv.ParseInt: parsing " ++ goQuote s ++ ": value out of range")
    else
      .ok v

/-- `strconv.ParseBool`: the twelve accepted literals. -/
def goParseBool (s : String) : Except String Bool :=
  if s = "1" ∨ s = "t" ∨ s = "T" ∨ s = "TRUE" ∨ s = "true" ∨ s = "True" then
    .ok true
  else if s = "0" ∨ s = "f" ∨ s = "F" ∨ s = "FALSE" ∨ s = "false" ∨ s = "False" then
    .ok false
  else
    .error ("strconv.ParseBool: parsing " ++ goQuote s ++ ": invalid syntax")

/-- `fmt.Sprintf("%v", x)` for the scalar values of the model. -/
def formatScalar : Scalar → String
  | .str s => s
  | .int n => if n < 0 then "-" ++ natToDec n.natAbs else natToDec n.natAbs
  | .bool b => if b then "true" else "false"

/-! ## Write path: part_000 (`extractHeaders`, `extractValues`, `WriteCSV`)
and osutils.go (`openOrCreateFile`) -/

/-- `extractHeaders(t, prefix)`: CSV headers of a struct type, nested structs
(and pointers to structs) flattened depth-first with `prefix + csvTag + "_"`
as the child prefix. -/
def extractHeaders : Fields → String → List String
  | .nil, _ => []
  | .consScalar name tag _ _ rest, pre =>
    (pre ++ tagOr name tag) :: extractHeaders rest pre
  | .consStruct name tag _ sub rest, pre =>
    extractHeaders sub (pre ++ tagOr name tag ++ "_") ++ extractHeaders rest pre
  | .consPtr name tag _ sub rest, pre =>
    extractHeaders sub (pre ++ tagOr name tag ++ "_") ++ extractHeaders rest pre

/-- `extractValues(v)`: field values of a record, nested structs flattened;
a nil pointer contributes one empty string per direct field of the pointed-to
struct type (the Go loop `for j := 0; j < fieldType.NumField(); j++`
appending `""`).  The Go function's error result is never non-nil; shape and
value walk together because a `reflect.Value` carries its type. -/
def extractValues : Fields → Vals → List String
  | .nil, _ => []
  | .consScalar _ _ _ _ rest, .consScalar sv vrest =>
    formatScalar sv :: extractValues rest vrest
  | .consStruct _ _ _ sub rest, .consStruct vs vrest =>
    extractValues sub vs ++ extractValues rest vrest
  | .consPtr _ _ _ sub rest, .consPtrNil vrest =>
    List.replicate (numFields sub) "" ++ extractValues rest vrest
  | .consPtr _ _ _ sub rest, .consPtr vs vrest =>
    extractValues sub vs ++ extractValues rest vrest
  | _, _ => []

/-- `openOrCreateFile` (osutils.go): open for append when the file exists,
else create.  The handle is modelled by the content writes are appended
after: the existing content, or nothing for a fresh file. -/
def openOrCreateFile (existing : Option (List (List String))) : List (List String) :=
  match existing with
  | some content => content
  | none => []

/-- `WriteCSV(filePath, records)` over the filesystem model: `existing` is
the file currently at the path (`none` when absent).  Returns the file
content after the call: previous content, then the header row, then one
encoded row per record.  The empty-slice guard is the Go
`errors.New("no records to write")`. -/
def writeCSV (t : Fields) (existing : Option (List (List String)))
    (records : List Vals) : Except String (List (List String)) :=
  match records with
  | [] => .error "no records to write"
  | _ =>
    let base := openOrCreateFile existing
    let headers := extractHeaders t ""
    .ok (base ++ headers :: records.map (extractValues t))

/-! ## Read path: part_002 (`buildFieldInfo`, `getFieldSetter`,
`initNestedPointers`, `processRecord`, `ReadCSV`) -/

/-- Join a column-name component onto the parent tag (`buildFieldInfo`:
`if parentTag != "" { csvTag = parentTag + "_" + csvTag }`). -/
def joinTag (ptag csvTag : String) : String :=
  if ptag = "" then csvTag else ptag ++ "_" ++ csvTag

/-- One resolved field binding (the Go `fieldInfo` struct).  The setter
closure is defunctionalised to the scalar kind it was built from. -/
structure FieldInfo where
  fieldName : String
  index : List Nat
  columnIndex : Int
  kind : Kind
  defaultValue : String
  deriving DecidableEq, Repr

/-- `getFieldSetter(fieldType)`: validates that the kind has a codec;
returns the kind standing for the setter closure.  `kOther` is every Go kind
the switch rejects. -/
def getFieldSetter (k : Kind) : Except String Kind :=
  match k with
  | .kOther => .error "unsupported field type: other"
  | k => .ok k

/-- Body of the setter closures `getFieldSetter` builds: empty-string
substitution by the kind's zero literal, strconv parse, wrapped parse
error. -/
def runSetter (k : Kind) (s : String) : Except String Scalar :=
  match k with
  | .kString => .ok (.str s)
  | .kInt =>
    let s := if s = "" then "0" else s
    match goParseInt s with
    | .ok n => .ok (.int n)
    | .error e => .error ("error parsing int value " ++ s ++ ": " ++ e)
  | .kBool =>
    let s := if s = "" then "false" else s
    match goParseBool s with
    | .ok b => .ok (.bool b)
    | .error e => .error ("error parsing bool value " ++ s ++ ": " ++ e)
  | .kOther => .error "unsupported field type: other"

/-- The header-to-position map (`columnIndex` in `ReadCSV`), built from
position `i0` on: later occurrences of a duplicate header overwrite earlier
ones, as repeated Go map assignment does. -/
def buildColumnIndexFrom : List String → Nat → String → Option Nat
  | [], _, _ => none
  | h :: rest, i0, name =>
    match buildColumnIndexFrom rest (i0 + 1) name with
    | some j => some j
    | none => if h = name then some i0 else none

/-- The Column Index of a header row. -/
def buildColumnIndex (headers : List String) : String → Option Nat :=
  buildColumnIndexFrom headers 0

/-- `buildFieldInfo(elemType, columnIndex, parentTag, parentFieldIndex)`:
depth-first resolution of every scalar leaf into a `FieldInfo`.  `i0` is the
position of the first field of `t` within its struct (the loop counter);
a column name absent from the index yields `columnIndex = -1` and the
`default` tag, never an error. -/
def buildFieldInfo (t : Fields) (cidx : String → Option Nat) (ptag : String)
    (pidx : List Nat) (i0 : Nat) : Except String (List FieldInfo) :=
  match t with
  | .nil => .ok []
  | .consScalar name tag dflt k rest =>
    let csvTag := joinTag ptag (tagOr name tag)
    let newIndex := pidx ++ [i0]
    let ci : Int :=
      match cidx csvTag with
      | some n => (n : Int)
      | none => -1
    match getFieldSetter k with
    | .error e => .error ("unsupported field type for field " ++ name ++ ": " ++ e)
    | .ok k' =>
      match buildFieldInfo rest cidx ptag pidx (i0 + 1) with
      | .error e => .error e
      | .ok restInfos =>
        .ok ({ fieldName := name, index := newIndex, columnIndex := ci,
               kind := k', defaultValue := dflt } :: restInfos)
  | .consStruct name tag _ sub rest =>
    let csvTag := joinTag ptag (tagOr name tag)
    match buildFieldInfo sub cidx csvTag (pidx ++ [i0]) 0 with
    | .error e => .error e
    | .ok subInfos =>
      match buildFieldInfo rest cidx ptag pidx (i0 + 1) with
      | .error e => .error e
      | .ok restInfos => .ok (subInfos ++ restInfos)
  | .consPtr name tag _ sub rest =>
    let csvTag := joinTag ptag (tagOr name tag)
    match buildFieldInfo sub cidx csvTag (pidx ++ [i0]) 0 with
    | .error e => .error e
    | .ok subInfos =>
      match buildFieldInfo rest cidx ptag pidx (i0 + 1) with
      | .error e => .error e
      | .ok restInfos => .ok (subInfos ++ restInfos)

/-- `initNestedPointers(v)`: allocate every nil pointer sub-record (to the
zero value of its struct type) and recurse into all sub-records.  The shape
argument is the type a `reflect.Value` carries. -/
def initNestedPointers : Fields → Vals → Vals
  | .nil, v => v
  | .consScalar _ _ _ _ rest, .consScalar sv vrest =>
    .consScalar sv (initNestedPointers rest vrest)
  | .consStruct _ _ _ sub rest, .consStruct vs vrest =>
    .consStruct (initNestedPointers sub vs) (initNestedPointers rest vrest)
  | .consPtr _ _ _ sub rest, .consPtrNil vrest =>
    .consPtr (initNestedPointers sub (zeroVals sub)) (initNestedPointers rest vrest)
  | .consPtr _ _ _ sub rest, .consPtr vs vrest =>
    .consPtr (initNestedPointers sub vs) (initNestedPointers rest vrest)
  | _, v => v

/-- `recordValue.FieldByIndex(path)` followed by `setter(fieldValue, s)`:
walk the field path, dereferencing pointers, and rewrite the addressed
scalar through `f`.  A nil pointer on the path is the `reflect` panic;
paths from `buildFieldInfo` never hit the other error arms. -/
def setAtPath (v : Vals) (path : List Nat) (f : Scalar → Except String Scalar) :
    Except String Vals :=
  match path, v with
  | [], _ => .error "reflect: empty field path"
  | 0 :: rest, .consScalar sv vrest =>
    match rest with
    | [] =>
      match f sv with
      | .ok sv' => .ok (.consScalar sv' vrest)
      | .error e => .error e
    | _ :: _ => .error "reflect: field path through a scalar field"
  | 0 :: rest, .consStruct vs vrest =>
    match setAtPath vs rest f with
    | .ok vs' => .ok (.consStruct vs' vrest)
    | .error e => .error e
  | 0 :: rest, .consPtr vs vrest =>
    match setAtPath vs rest f with
    | .ok vs' => .ok (.consPtr vs' vrest)
    | .error e => .error e
  | 0 :: _, .consPtrNil _ => .error "reflect: indirection through nil pointer"
  | (i + 1) :: rest, .consScalar sv vrest =>
    match setAtPath vrest (i :: rest) f with
    | .ok v' => .ok (.consScalar sv v')
    | .error e => .error e
  | (i + 1) :: rest, .consStruct vs vrest =>
    match setAtPath vrest (i :: rest) f with
    | .ok v' => .ok (.consStruct vs v')
    | .error e => .error e
  | (i + 1) :: rest, .consPtrNil vrest =>
    match setAtPath vrest (i :: rest) f with
    | .ok v' => .ok (.consPtrNil v')
    | .error e => .error e
  | (i + 1) :: rest, .consPtr vs vrest =>
    match setAtPath vrest (i :: rest) f with
    | .ok v' => .ok (.consPtr vs v')
    | .error e => .error e
  | _ :: _, .nil => .error "reflect: field index out of range"

/-- Body of the `for _, info := range fieldInfo` loop of `processRecord` for
one binding: select the raw cell (guarded by `0 <= columnIndex < len(record)`),
fall back to the default when empty, run the setter, wrap its error with the
field name. -/
def applyInfo (v : Vals) (info : FieldInfo) (row : List String) : Except String Vals :=
  let raw : String :=
    if 0 ≤ info.columnIndex ∧ info.columnIndex < (row.length : Int) then
      row.getD info.columnIndex.toNat ""
    else ""
  let value := if raw = "" then info.defaultValue else raw
  match setAtPath v info.index (fun _ => runSetter info.kind value) with
  | .ok v' => .ok v'
  | .error e =>
    .error ("failed to set field value for field " ++ info.fieldName ++ ": " ++ e)

/-- The whole binding loop of `processRecord`, first error wins. -/
def applyInfos (v : Vals) (infos : List FieldInfo) (row : List String) :
    Except String Vals :=
  match infos with
  | [] => .ok v
  | info :: rest =>
    match applyInfo v info row with
    | .error e => .error e
    | .ok v' => applyInfos v' rest row

/-- Row materialization of `processRecord`: a fresh zero record, nested
pointers allocated up front, then every binding applied. -/
def materializeRecord (t : Fields) (infos : List FieldInfo) (row : List String) :
    Except String Vals :=
  applyInfos (initNestedPointers t (zeroVals t)) infos row

/-- `processRecord(record, elemType, fieldInfo, handler)`: materialize, then
hand the record to the handler when one is set; `.ok r` reports the record
the handler received (the Go function returns only the error). -/
def processRecord (t : Fields) (infos : List FieldInfo) (row : List String)
    (handler : Option (Vals → Except String Unit)) : Except String Vals :=
  match materializeRecord t infos row with
  | .error e => .error e
  | .ok r =>
    match handler with
    | none => .ok r
    | some h =>
      match h r with
      | .ok _ => .ok r
      | .error e => .error ("handler error: " ++ e)

/-- Options of `ReadCSV` (`newCsvOptions`): optional handler, concurrency
(default 1; only forwarded to the external pool). -/
structure CsvOptions where
  handler : Option (Vals → Except String Unit)
  concurrency : Int

/-- Observable interaction of one `ReadCSV` call with the worker pool: the
rows submitted via `AddTask` in submission order, the outcome of each
submitted task (the pool executes every task), and whether
`WaitAndStop` ran before the call returned. -/
structure PoolTrace where
  submitted : List (List String)
  results : List (Except String Vals)
  drained : Bool

/-- The `for { record, err := reader.Read(); ... pool.AddTask(...) }` loop of
`ReadCSV`.  Each source element is one `reader.Read` outcome; the list ends
at `io.EOF`.  Task results are recorded in the trace and — as in the code,
where `AddTask`'s result is dropped and `WaitAndStop` runs in a `defer` —
never consulted for the call's own result. -/
def readLoop (t : Fields) (infos : List FieldInfo)
    (handler : Option (Vals → Except String Unit))
    (rows : List (Except String (List String))) (recordNum : Nat)
    (sub : List (List String)) (res : List (Except String Vals)) :
    Except String Unit × List (List String) × List (Except String Vals) :=
  match rows with
  | [] => (.ok (), sub, res)
  | .error e :: _ =>
    (.error ("failed to read record at line " ++ natToDec recordNum ++ ": " ++ e),
     sub, res)
  | .ok row :: rest =>
    readLoop t infos handler rest (recordNum + 1) (sub ++ [row])
      (res ++ [processRecord t infos row handler])

/-- `ReadCSV(filePath, recordType, options)`: the file is the sequence of
`reader.Read` outcomes, header first.  Returns the call's result and the
pool trace; the pool is created before the file is opened and
`defer pool.WaitAndStop()` drains it on every exit path. -/
def readCSV (t : Fields) (file : List (Except String (List String)))
    (opts : CsvOptions) : Except String Unit × PoolTrace :=
  match file with
  | [] =>
    (.error "failed to read header: EOF", ⟨[], [], true⟩)
  | .error e :: _ =>
    (.error ("failed to read header: " ++ e), ⟨[], [], true⟩)
  | .ok headers :: rows =>
    let cidx := buildColumnIndex headers
    match buildFieldInfo t cidx "" [] 0 with
    | .error e => (.error ("failed to build field info: " ++ e), ⟨[], [], true⟩)
    | .ok infos =>
      let out := readLoop t infos opts.handler rows 1 [] []
      (out.1, ⟨out.2.1, out.2.2, true⟩)

/-! ## Codec round-trip lemmas -/

theorem digitChar_isDigit {d : Nat} (h : d < 10) : (digitChar d).isDigit = true := by
  interval_cases d <;> decide

theorem digitChar_toNat {d : Nat} (h : d < 10) : (digitChar d).toNat - 48 = d := by
  interval_cases d <;> decide

theorem digitChar_ne_dash {d : Nat} (h : d < 10) : digitChar d ≠ '-' := by
  interval_cases d <;> decide

theorem digitChar_ne_plus {d : Nat} (h : d < 10) : digitChar d ≠ '+' := by
  interval_cases d <;> decide

theorem natToDecAux_acc (fuel n : Nat) (acc : List Char) (h : n < fuel) :
    natToDecAux fuel n acc = natToDecAux fuel n [] ++ acc := by
  induction fuel generalizing n acc with
  | zero => omega
  | succ f ih =>
    by_cases h10 : n < 10
    · simp [natToDecAux, h10]
    · have hdiv : n / 10 < n := Nat.div_lt_self (by omega) (by omega)
      have hf : n / 10 < f := by omega
      rw [natToDecAux, natToDecAux, if_neg h10, if_neg h10, ih _ _ hf,
        ih _ [digitChar (n % 10)] hf, List.append_assoc]
      rfl

theorem natToDecAux_fuel (f1 f2 n : Nat) (h1 : n < f1) (h2 : n < f2) :
    natToDecAux f1 n [] = natToDecAux f2 n [] := by
  induction f1 generalizing f2 n with
  | zero => omega
  | succ f ih =>
    match f2, h2 with
    | g + 1, h2 =>
      by_cases h10 : n < 10
      · simp [natToDecAux, h10]
      · have hdiv : n / 10 < n := Nat.div_lt_self (by omega) (by omega)
        rw [natToDecAux, natToDecAux, if_neg h10, if_neg h10,
          natToDecAux_acc f _ _ (by omega), natToDecAux_acc g _ _ (by omega),
          ih g (n / 10) (by omega) (by omega)]

theorem natToDecAux_digits (fuel n : Nat) (h : n < fuel) :
    (natToDecAux fuel n []).all Char.isDigit = true ∧ natToDecAux fuel n [] ≠ [] := by
  induction fuel generalizing n with
  | zero => omega
  | succ f ih =>
    by_cases h10 : n < 10
    · simp [natToDecAux, h10, digitChar_isDigit h10]
    · have hdiv : n / 10 < n := Nat.div_lt_self (by omega) (by omega)
      have hf : n / 10 < f := by omega
      rw [natToDecAux, if_neg h10, natToDecAux_acc f _ _ hf]
      obtain ⟨hall, hne⟩ := ih (n / 10) hf
      refine ⟨?_, by simp [hne]⟩
      simp only [List.all_append, hall, Bool.true_and, List.all_cons, List.all_nil]
      simp [digitChar_isDigit (Nat.mod_lt n (by omega))]

theorem digitsToNat_append_one (l : List Char) (c : Char) :
    digitsToNat (l ++ [c]) = digitsToNat l * 10 + (c.toNat - 48) := by
  simp [digitsToNat, List.foldl_append]

theorem digitsToNat_natToDecAux (fuel n : Nat) (h : n < fuel) :
    digitsToNat (natToDecAux fuel n []) = n := by
  induction fuel generalizing n with
  | zero => omega
  | succ f ih =>
    by_cases h10 : n < 10
    · simp [natToDecAux, h10, digitsToNat, digitChar_toNat h10]
    · have hdiv : n / 10 < n := Nat.div_lt_self (by omega) (by omega)
      have hf : n / 10 < f := by omega
      rw [natToDecAux, if_neg h10, natToDecAux_acc f _ _ hf,
        digitsToNat_append_one, ih _ hf, digitChar_toNat (Nat.mod_lt n (by omega))]
      omega

theorem natToDec_digits (n : Nat) :
    (natToDec n).data.all Char.isDigit = true ∧ (natToDec n).data ≠ [] := by
  simpa [natToDec] using natToDecAux_digits (n + 1) n (by omega)

theorem digitsToNat_natToDec (n : Nat) : digitsToNat (natToDec n).data = n := by
  simpa [natToDec] using digitsToNat_natToDecAux (n + 1) n (by omega)

theorem natToDec_ne_empty (n : Nat) : natToDec n ≠ "" := by
  intro h
  have := (natToDec_digits n).2
  rw [h] at this
  exact this rfl

theorem isDigit_ne_dash {c : Char} (h : c.isDigit = true) : c ≠ '-' := by
  intro he; rw [he] at h; exact absurd h (by decide)

theorem isDigit_ne_plus {c : Char} (h : c.isDigit = true) : c ≠ '+' := by
  intro he; rw [he] at h; exact absurd h (by decide)

theorem parseSign_digits (cs : List Char) (hall : cs.all Char.isDigit = true) :
    parseSign cs = (false, cs) := by
  cases cs with
  | nil => rfl
  | cons c r =>
    have hcd : c.isDigit = true := by
      simp only [List.all_cons, Bool.and_eq_true] at hall
      exact hall.1
    rw [parseSign, if_neg (isDigit_ne_dash hcd), if_neg (isDigit_ne_plus hcd)]

theorem goParseInt_natToDec (m : Nat) (hm : (m : Int) ≤ 2 ^ 63 - 1) :
    goParseInt (natToDec m) = .ok (m : Int) := by
  obtain ⟨hall, hne⟩ := natToDec_digits m
  rw [goParseInt]
  simp only [parseSign_digits _ hall]
  rw [if_neg (by push_neg; exact ⟨hne, by simp [hall]⟩)]
  simp only [Bool.false_eq_true, if_false]
  rw [digitsToNat_natToDec m, if_neg (by push_neg; constructor <;> omega)]

theorem goParseInt_formatInt (n : Int) (h1 : -(2 ^ 63) ≤ n) (h2 : n ≤ 2 ^ 63 - 1) :
    goParseInt (formatScalar (.int n)) = .ok n := by
  by_cases hn : n < 0
  · have habs : ((n.natAbs : Int)) = -n := by omega
    rw [formatScalar, if_pos hn]
    obtain ⟨hall, hne⟩ := natToDec_digits n.natAbs
    rw [goParseInt]
    have hdata : ("-" ++ natToDec n.natAbs).data = '-' :: (natToDec n.natAbs).data := by
      simp [String.data_append]
    simp only [hdata, parseSign, if_pos rfl]
    rw [if_neg (by push_neg; exact ⟨hne, by simp [hall]⟩)]
    simp only [if_true]
    rw [digitsToNat_natToDec, if_neg (by push_neg; constructor <;> omega)]
    congr 1
    omega
  · rw [formatScalar, if_neg hn]
    have habs : ((n.natAbs : Int)) = n := by omega
    rw [goParseInt_natToDec n.natAbs (by omega), habs]

/-- Int64 range of an integer scalar; vacuous for the other kinds. -/
def Scalar.inRange : Scalar → Bool
  | .int n => decide (-(2 ^ 63) ≤ n) && decide (n ≤ 2 ^ 63 - 1)
  | _ => true

theorem runSetter_format (sv : Scalar) (h : sv.inRange = true) :
    runSetter sv.kind (formatScalar sv) = .ok sv := by
  match sv with
  | .str s => rfl
  | .int n =>
    simp only [Scalar.inRange, Bool.and_eq_true, decide_eq_true_eq] at h
    have hne : formatScalar (.int n) ≠ "" := by
      rw [formatScalar]
      by_cases hn : n < 0
      · rw [if_pos hn]
        intro he
        have : ("-" ++ natToDec n.natAbs).data = [] := by rw [he]
        rw [String.data_append] at this
        simp at this
      · rw [if_neg hn]; exact natToDec_ne_empty _
    rw [Scalar.kind, runSetter]
    simp only [if_neg hne]
    rw [goParseInt_formatInt n h.1 h.2]
  | .bool b => cases b <;> rfl

theorem runSetter_empty (k : Kind) (h : k ≠ .kOther) :
    runSetter k "" = .ok (zeroOf k) := by
  cases k with
  | kString => rfl
  | kInt => rfl
  | kBool => rfl
  | kOther => exact absurd rfl h

/-! ## Shape and value predicates, flattening to leaves -/

/-- Every leaf kind has a codec (`getFieldSetter` succeeds). -/
def supported : Fields → Bool
  | .nil => true
  | .consScalar _ _ _ k rest => !(k = .kOther : Bool) && supported rest
  | .consStruct _ _ _ sub rest => supported sub && supported rest
  | .consPtr _ _ _ sub rest => supported sub && supported rest

/-- No field declares a `default` tag. -/
def noDefaults : Fields → Bool
  | .nil => true
  | .consScalar _ _ dflt _ rest => (dflt = "" : Bool) && noDefaults rest
  | .consStruct _ _ _ sub rest => noDefaults sub && noDefaults rest
  | .consPtr _ _ _ sub rest => noDefaults sub && noDefaults rest

/-- Every field's effective column-name component is non-empty (Go structural
field names are never empty, so this always holds for real shapes). -/
def tagsNonempty : Fields → Bool
  | .nil => true
  | .consScalar name tag _ _ rest => !(tagOr name tag = "" : Bool) && tagsNonempty rest
  | .consStruct name tag _ sub rest =>
    !(tagOr name tag = "" : Bool) && tagsNonempty sub && tagsNonempty rest
  | .consPtr name tag _ sub rest =>
    !(tagOr name tag = "" : Bool) && tagsNonempty sub && tagsNonempty rest

/-- All fields of the shape are scalars (a flat struct). -/
def allScalarF : Fields → Bool
  | .nil => true
  | .consScalar _ _ _ _ rest => allScalarF rest
  | .consStruct _ _ _ _ _ => false
  | .consPtr _ _ _ _ _ => false

/-- Every integer leaf of the value is in the int64 range. -/
def valsInRange : Vals → Bool
  | .nil => true
  | .consScalar sv rest => sv.inRange && valsInRange rest
  | .consStruct vs rest => valsInRange vs && valsInRange rest
  | .consPtrNil rest => valsInRange rest
  | .consPtr vs rest => valsInRange vs && valsInRange rest

/-- Every nil pointer sub-record of the value sits at a pointer field whose
struct type is flat (all scalar fields). -/
def nilSpansFlat : Fields → Vals → Bool
  | .nil, _ => true
  | .consScalar _ _ _ _ rest, .consScalar _ vrest => nilSpansFlat rest vrest
  | .consStruct _ _ _ sub rest, .consStruct vs vrest =>
    nilSpansFlat sub vs && nilSpansFlat rest vrest
  | .consPtr _ _ _ sub rest, .consPtrNil vrest =>
    allScalarF sub && nilSpansFlat rest vrest
  | .consPtr _ _ _ sub rest, .consPtr vs vrest =>
    nilSpansFlat sub vs && nilSpansFlat rest vrest
  | _, _ => true

/-- The zero scalars of a shape's leaves, in depth-first order. -/
def zeroScalars : Fields → List Scalar
  | .nil => []
  | .consScalar _ _ _ k rest => zeroOf k :: zeroScalars rest
  | .consStruct _ _ _ sub rest => zeroScalars sub ++ zeroScalars rest
  | .consPtr _ _ _ sub rest => zeroScalars sub ++ zeroScalars rest

/-- The scalar leaves of a record in depth-first order; a nil pointer
sub-record contributes the zero scalars of its shape (what materializing it
from empty cells produces). -/
def leaves : Fields → Vals → List Scalar
  | .nil, _ => []
  | .consScalar _ _ _ _ rest, .consScalar sv vrest => sv :: leaves rest vrest
  | .consStruct _ _ _ sub rest, .consStruct vs vrest =>
    leaves sub vs ++ leaves rest vrest
  | .consPtr _ _ _ sub rest, .consPtrNil vrest =>
    zeroScalars sub ++ leaves rest vrest
  | .consPtr _ _ _ sub rest, .consPtr vs vrest =>
    leaves sub vs ++ leaves rest vrest
  | _, _ => []

/-- Number of direct fields of a value. -/
def lenF : Vals → Nat
  | .nil => 0
  | .consScalar _ rest => lenF rest + 1
  | .consStruct _ rest => lenF rest + 1
  | .consPtrNil rest => lenF rest + 1
  | .consPtr _ rest => lenF rest + 1

/-- Concatenation of two field sequences (the `.nil` terminator of the first
replaced by the second). -/
def appF : Vals → Vals → Vals
  | .nil, w => w
  | .consScalar sv rest, w => .consScalar sv (appF rest w)
  | .consStruct vs rest, w => .consStruct vs (appF rest w)
  | .consPtrNil rest, w => .consPtrNil (appF rest w)
  | .consPtr vs rest, w => .consPtr vs (appF rest w)

theorem appF_nil (w : Vals) : appF .nil w = w := rfl

theorem appF_assoc (a b c : Vals) : appF (appF a b) c = appF a (appF b c) := by
  induction a <;> simp_all [appF]

theorem lenF_appF (a b : Vals) : lenF (appF a b) = lenF a + lenF b := by
  induction a <;> simp_all [appF, lenF] <;> omega

/-! ## Structural lemmas about initialization and well-typedness -/

theorem noNilPtr_initZero (t : Fields) :
    noNilPtr (initNestedPointers t (zeroVals t)) = true := by
  induction t with
  | nil => rfl
  | consScalar name tag dflt k rest ih =>
    simp [zeroVals, initNestedPointers, noNilPtr, ih]
  | consStruct name tag dflt sub rest ihs ihr =>
    simp [zeroVals, initNestedPointers, noNilPtr, ihs, ihr]
  | consPtr name tag dflt sub rest ihs ihr =>
    simp [zeroVals, initNestedPointers, noNilPtr, ihs, ihr]

theorem wellTyped_initZero (t : Fields) (h : supported t = true) :
    wellTyped t (initNestedPointers t (zeroVals t)) = true := by
  induction t with
  | nil => rfl
  | consScalar name tag dflt k rest ih =>
    simp only [supported, Bool.and_eq_true] at h
    have hk : (zeroOf k).kind = k := by
      cases k with
      | kOther => simp at h
      | kString => rfl
      | kInt => rfl
      | kBool => rfl
    simp [zeroVals, initNestedPointers, wellTyped, hk, ih h.2]
  | consStruct name tag dflt sub rest ihs ihr =>
    simp only [supported, Bool.and_eq_true] at h
    simp [zeroVals, initNestedPointers, wellTyped, ihs h.1, ihr h.2]
  | consPtr name tag dflt sub rest ihs ihr =>
    simp only [supported, Bool.and_eq_true] at h
    simp [zeroVals, initNestedPointers, wellTyped, ihs h.1, ihr h.2]

theorem noNilPtr_init (t : Fields) (v : Vals) (h : wellTyped t v = true) :
    noNilPtr (initNestedPointers t v) = true := by
  induction t generalizing v with
  | nil => cases v <;> simp_all [wellTyped, initNestedPointers, noNilPtr]
  | consScalar name tag dflt k rest ih =>
    cases v <;> simp_all [wellTyped, initNestedPointers, noNilPtr]
  | consStruct name tag dflt sub rest ihs ihr =>
    cases v <;> simp_all [wellTyped, initNestedPointers, noNilPtr]
  | consPtr name tag dflt sub rest ihs ihr =>
    cases v <;>
      simp_all [wellTyped, initNestedPointers, noNilPtr, noNilPtr_initZero]

theorem wellTyped_init (t : Fields) (v : Vals) (hs : supported t = true)
    (h : wellTyped t v = true) :
    wellTyped t (initNestedPointers t v) = true := by
  induction t generalizing v with
  | nil => cases v <;> simp_all [wellTyped, initNestedPointers]
  | consScalar name tag dflt k rest ih =>
    simp only [supported, Bool.and_eq_true] at hs
    cases v <;> simp_all [wellTyped, initNestedPointers]
  | consStruct name tag dflt sub rest ihs ihr =>
    simp only [supported, Bool.and_eq_true] at hs
    cases v <;> simp_all [wellTyped, initNestedPointers]
  | consPtr name tag dflt sub rest ihs ihr =>
    simp only [supported, Bool.and_eq_true] at hs
    cases v <;>
      simp_all [wellTyped, initNestedPointers, wellTyped_initZero sub hs.1]

theorem init_id (t : Fields) (v : Vals) (hw : wellTyped t v = true)
    (hn : noNilPtr v = true) : initNestedPointers t v = v := by
  induction t generalizing v with
  | nil => cases v <;> simp_all [wellTyped, initNestedPointers]
  | consScalar name tag dflt k rest ih =>
    cases v <;> simp_all [wellTyped, noNilPtr, initNestedPointers]
  | consStruct name tag dflt sub rest ihs ihr =>
    cases v <;> simp_all [wellTyped, noNilPtr, initNestedPointers]
  | consPtr name tag dflt sub rest ihs ihr =>
    cases v <;> simp_all [wellTyped, noNilPtr, initNestedPointers]

theorem leaves_initZero (t : Fields) :
    leaves t (initNestedPointers t (zeroVals t)) = zeroScalars t := by
  induction t with
  | nil => rfl
  | consScalar name tag dflt k rest ih =>
    simp [zeroVals, initNestedPointers, leaves, zeroScalars, ih]
  | consStruct name tag dflt sub rest ihs ihr =>
    simp [zeroVals, initNestedPointers, leaves, zeroScalars, ihs, ihr]
  | consPtr name tag dflt sub rest ihs ihr =>
    simp [zeroVals, initNestedPointers, leaves, zeroScalars, ihs, ihr]

theorem leaves_init (t : Fields) (v : Vals) (hw : wellTyped t v = true) :
    leaves t (initNestedPointers t v) = leaves t v := by
  induction t generalizing v with
  | nil => cases v <;> simp_all [wellTyped, initNestedPointers, leaves]
  | consScalar name tag dflt k rest ih =>
    cases v <;> simp_all [wellTyped, initNestedPointers, leaves]
  | consStruct name tag dflt sub rest ihs ihr =>
    cases v <;> simp_all [wellTyped, initNestedPointers, leaves]
  | consPtr name tag dflt sub rest ihs ihr =>
    cases v <;>
      simp_all [wellTyped, initNestedPointers, leaves, leaves_initZero]

theorem zeroScalars_length (t : Fields) : (zeroScalars t).length = leafCount t := by
  induction t <;> simp_all [zeroScalars, leafCount]

theorem leaves_length (t : Fields) (v : Vals) (hw : wellTyped t v = true) :
    (leaves t v).length = leafCount t := by
  induction t generalizing v with
  | nil => cases v <;> simp_all [wellTyped, leaves, leafCount]
  | consScalar name tag dflt k rest ih =>
    cases v <;> simp_all [wellTyped, leaves, leafCount]
  | consStruct name tag dflt sub rest ihs ihr =>
    cases v <;> simp_all [wellTyped, leaves, leafCount]
  | consPtr name tag dflt sub rest ihs ihr =>
    cases v <;> simp_all [wellTyped, leaves, leafCount]
    case consPtrNil vrest =>
      have := zeroScalars_length sub
      omega

theorem wellTyped_nil_inv {v : Vals} (h : wellTyped .nil v = true) : v = .nil := by
  cases v <;> simp_all [wellTyped]

theorem wellTyped_scalar_inv {name tag dflt : String} {k : Kind} {rest : Fields}
    {v : Vals} (h : wellTyped (.consScalar name tag dflt k rest) v = true) :
    ∃ sv vrest, v = .consScalar sv vrest ∧ sv.kind = k ∧ wellTyped rest vrest = true := by
  cases v with
  | consScalar sv vrest =>
    simp only [wellTyped, Bool.and_eq_true, decide_eq_true_eq] at h
    exact ⟨sv, vrest, rfl, h.1, h.2⟩
  | nil => simp [wellTyped] at h
  | consStruct vs vrest => simp [wellTyped] at h
  | consPtrNil vrest => simp [wellTyped] at h
  | consPtr vs vrest => simp [wellTyped] at h

theorem wellTyped_struct_inv {name tag dflt : String} {sub rest : Fields}
    {v : Vals} (h : wellTyped (.consStruct name tag dflt sub rest) v = true) :
    ∃ vs vrest, v = .consStruct vs vrest ∧ wellTyped sub vs = true ∧
      wellTyped rest vrest = true := by
  cases v with
  | consStruct vs vrest =>
    simp only [wellTyped, Bool.and_eq_true] at h
    exact ⟨vs, vrest, rfl, h.1, h.2⟩
  | nil => simp [wellTyped] at h
  | consScalar sv vrest => simp [wellTyped] at h
  | consPtrNil vrest => simp [wellTyped] at h
  | consPtr vs vrest => simp [wellTyped] at h

theorem wellTyped_ptr_inv {name tag dflt : String} {sub rest : Fields}
    {v : Vals} (h : wellTyped (.consPtr name tag dflt sub rest) v = true) :
    (∃ vrest, v = .consPtrNil vrest ∧ wellTyped rest vrest = true) ∨
    (∃ vs vrest, v = .consPtr vs vrest ∧ wellTyped sub vs = true ∧
      wellTyped rest vrest = true) := by
  cases v with
  | consPtrNil vrest =>
    simp only [wellTyped] at h
    exact .inl ⟨vrest, rfl, h⟩
  | consPtr vs vrest =>
    simp only [wellTyped, Bool.and_eq_true] at h
    exact .inr ⟨vs, vrest, rfl, h.1, h.2⟩
  | nil => simp [wellTyped] at h
  | consScalar sv vrest => simp [wellTyped] at h
  | consStruct vs vrest => simp [wellTyped] at h

theorem leaves_ext (t : Fields) : ∀ a b : Vals, wellTyped t a = true →
    wellTyped t b = true → noNilPtr a = true → noNilPtr b = true →
    leaves t a = leaves t b → a = b := by
  induction t with
  | nil =>
    intro a b hwa hwb _ _ _
    rw [wellTyped_nil_inv hwa, wellTyped_nil_inv hwb]
  | consScalar name tag dflt k rest ih =>
    intro a b hwa hwb hna hnb hl
    obtain ⟨sva, ra, rfl, hka, hra⟩ := wellTyped_scalar_inv hwa
    obtain ⟨svb, rb, rfl, hkb, hrb⟩ := wellTyped_scalar_inv hwb
    simp only [noNilPtr] at hna hnb
    simp only [leaves, List.cons.injEq] at hl
    rw [hl.1, ih ra rb hra hrb hna hnb hl.2]
  | consStruct name tag dflt sub rest ihs ihr =>
    intro a b hwa hwb hna hnb hl
    obtain ⟨va, ra, rfl, hsa, hra⟩ := wellTyped_struct_inv hwa
    obtain ⟨vb, rb, rfl, hsb, hrb⟩ := wellTyped_struct_inv hwb
    simp only [noNilPtr, Bool.and_eq_true] at hna hnb
    simp only [leaves] at hl
    have hlen : (leaves sub va).length = (leaves sub vb).length := by
      rw [leaves_length sub va hsa, leaves_length sub vb hsb]
    obtain ⟨h1, h2⟩ := List.append_inj hl hlen
    rw [ihs va vb hsa hsb hna.1 hnb.1 h1, ihr ra rb hra hrb hna.2 hnb.2 h2]
  | consPtr name tag dflt sub rest ihs ihr =>
    intro a b hwa hwb hna hnb hl
    rcases wellTyped_ptr_inv hwa with ⟨ra, rfl, hra⟩ | ⟨va, ra, rfl, hsa, hra⟩
    · simp [noNilPtr] at hna
    rcases wellTyped_ptr_inv hwb with ⟨rb, rfl, hrb⟩ | ⟨vb, rb, rfl, hsb, hrb⟩
    · simp [noNilPtr] at hnb
    simp only [noNilPtr, Bool.and_eq_true] at hna hnb
    simp only [leaves] at hl
    have hlen : (leaves sub va).length = (leaves sub vb).length := by
      rw [leaves_length sub va hsa, leaves_length sub vb hsb]
    obtain ⟨h1, h2⟩ := List.append_inj hl hlen
    rw [ihs va vb hsa hsb hna.1 hnb.1 h1, ihr ra rb hra hrb hna.2 hnb.2 h2]

/-! ## Resolution lemmas: `buildFieldInfo` structure -/

/-- Column position of a header under a Column Index, `-1` when absent (the
shape `buildFieldInfo` stores in `columnIndex`). -/
def lookupInt (cidx : String → Option Nat) (h : String) : Int :=
  match cidx h with
  | some n => (n : Int)
  | none => -1

/-- The `extractHeaders` prefix corresponding to a `buildFieldInfo` parent
tag. -/
def preOf (ptag : String) : String :=
  if ptag = "" then "" else ptag ++ "_"

/-- Prefix a parent field path onto a binding's path. -/
def prependPath (pidx : List Nat) (inf : FieldInfo) : FieldInfo :=
  { inf with index := pidx ++ inf.index }

theorem str_append_ne_empty (a b : String) (h : a ≠ "") : a ++ b ≠ "" := by
  intro he
  apply h
  have hd : (a ++ b).data = [] := by rw [he]
  rw [String.data_append, List.append_eq_nil] at hd
  cases a
  rw [show ("" : String) = ⟨[]⟩ from rfl]
  exact congrArg String.mk hd.1

theorem preOf_joinTag (ptag x : String) (hx : x ≠ "") :
    preOf (joinTag ptag x) = preOf ptag ++ x ++ "_" := by
  by_cases hp : ptag = ""
  · subst hp
    rw [joinTag, if_pos rfl, preOf, preOf, if_pos rfl, if_neg hx]
    apply String.ext
    simp [String.data_append]
  · rw [joinTag, if_neg hp, preOf, preOf, if_neg hp,
      if_neg (str_append_ne_empty _ _ (str_append_ne_empty _ _ hp))]

theorem buildFieldInfo_length (t : Fields) (cidx : String → Option Nat)
    (ptag : String) (pidx : List Nat) (i0 : Nat) (infos : List FieldInfo)
    (h : buildFieldInfo t cidx ptag pidx i0 = .ok infos) :
    infos.length = leafCount t := by
  induction t generalizing ptag pidx i0 infos with
  | nil =>
    simp only [buildFieldInfo] at h
    cases h
    rfl
  | consScalar name tag dflt k rest ih =>
    simp only [buildFieldInfo] at h
    cases hg : getFieldSetter k with
    | error e => rw [hg] at h; cases h
    | ok k' =>
      rw [hg] at h
      cases hr : buildFieldInfo rest cidx ptag pidx (i0 + 1) with
      | error e => rw [hr] at h; cases h
      | ok restInfos =>
        rw [hr] at h
        cases h
        simp [leafCount, ih _ _ _ _ hr]
  | consStruct name tag dflt sub rest ihs ihr =>
    simp only [buildFieldInfo] at h
    cases hs : buildFieldInfo sub cidx (joinTag ptag (tagOr name tag)) (pidx ++ [i0]) 0 with
    | error e => rw [hs] at h; cases h
    | ok subInfos =>
      rw [hs] at h
      cases hr : buildFieldInfo rest cidx ptag pidx (i0 + 1) with
      | error e => rw [hr] at h; cases h
      | ok restInfos =>
        rw [hr] at h
        cases h
        simp [leafCount, ihs _ _ _ _ hs, ihr _ _ _ _ hr]
  | consPtr name tag dflt sub rest ihs ihr =>
    simp only [buildFieldInfo] at h
    cases hs : buildFieldInfo sub cidx (joinTag ptag (tagOr name tag)) (pidx ++ [i0]) 0 with
    | error e => rw [hs] at h; cases h
    | ok subInfos =>
      rw [hs] at h
      cases hr : buildFieldInfo rest cidx ptag pidx (i0 + 1) with
      | error e => rw [hr] at h; cases h
      | ok restInfos =>
        rw [hr] at h
        cases h
        simp [leafCount, ihs _ _ _ _ hs, ihr _ _ _ _ hr]

theorem buildFieldInfo_ok (t : Fields) (cidx : String → Option Nat)
    (h : supported t = true) :
    ∀ ptag pidx i0, ∃ infos, buildFieldInfo t cidx ptag pidx i0 = .ok infos := by
  induction t with
  | nil => intro ptag pidx i0; exact ⟨[], rfl⟩
  | consScalar name tag dflt k rest ih =>
    intro ptag pidx i0
    simp only [supported, Bool.and_eq_true, Bool.not_eq_eq_eq_not, Bool.not_true,
      decide_eq_false_iff_not] at h
    obtain ⟨restInfos, hr⟩ := ih h.2 ptag pidx (i0 + 1)
    have hg : getFieldSetter k = .ok k := by
      cases k with
      | kOther => exact absurd rfl h.1
      | kString => rfl
      | kInt => rfl
      | kBool => rfl
    refine ⟨FieldInfo.mk name (pidx ++ [i0])
      (lookupInt cidx (joinTag ptag (tagOr name tag))) k dflt :: restInfos, ?_⟩
    simp only [buildFieldInfo, hg, hr, lookupInt]
  | consStruct name tag dflt sub rest ihs ihr =>
    intro ptag pidx i0
    simp only [supported, Bool.and_eq_true] at h
    obtain ⟨subInfos, hs⟩ := ihs h.1 (joinTag ptag (tagOr name tag)) (pidx ++ [i0]) 0
    obtain ⟨restInfos, hr⟩ := ihr h.2 ptag pidx (i0 + 1)
    refine ⟨subInfos ++ restInfos, ?_⟩
    simp only [buildFieldInfo, hs, hr]
  | consPtr name tag dflt sub rest ihs ihr =>
    intro ptag pidx i0
    simp only [supported, Bool.and_eq_true] at h
    obtain ⟨subInfos, hs⟩ := ihs h.1 (joinTag ptag (tagOr name tag)) (pidx ++ [i0]) 0
    obtain ⟨restInfos, hr⟩ := ihr h.2 ptag pidx (i0 + 1)
    refine ⟨subInfos ++ restInfos, ?_⟩
    simp only [buildFieldInfo, hs, hr]

theorem buildFieldInfo_columns (t : Fields) (cidx : String → Option Nat) :
    ∀ ptag pidx i0 infos, tagsNonempty t = true →
      buildFieldInfo t cidx ptag pidx i0 = .ok infos →
      infos.map (·.columnIndex) =
        (extractHeaders t (preOf ptag)).map (lookupInt cidx) := by
  induction t with
  | nil =>
    intro ptag pidx i0 infos _ h
    simp only [buildFieldInfo] at h
    cases h
    rfl
  | consScalar name tag dflt k rest ih =>
    intro ptag pidx i0 infos ht h
    simp only [tagsNonempty, Bool.and_eq_true, Bool.not_eq_eq_eq_not, Bool.not_true,
      decide_eq_false_iff_not] at ht
    simp only [buildFieldInfo] at h
    cases hg : getFieldSetter k with
    | error e => rw [hg] at h; cases h
    | ok k' =>
      rw [hg] at h
      cases hr : buildFieldInfo rest cidx ptag pidx (i0 + 1) with
      | error e => rw [hr] at h; cases h
      | ok restInfos =>
        rw [hr] at h
        cases h
        have hname : preOf ptag ++ tagOr name tag = joinTag ptag (tagOr name tag) := by
          by_cases hp : ptag = ""
          · subst hp
            rw [preOf, if_pos rfl, joinTag, if_pos rfl]
            apply String.ext
            simp [String.data_append]
          · rw [preOf, if_neg hp, joinTag, if_neg hp]
        simp only [extractHeaders, List.map_cons, List.map,
          ih ptag pidx (i0 + 1) restInfos ht.2 hr, hname]
        rfl
  | consStruct name tag dflt sub rest ihs ihr =>
    intro ptag pidx i0 infos ht h
    simp only [tagsNonempty, Bool.and_eq_true, Bool.not_eq_eq_eq_not, Bool.not_true,
      decide_eq_false_iff_not] at ht
    simp only [buildFieldInfo] at h
    cases hs : buildFieldInfo sub cidx (joinTag ptag (tagOr name tag)) (pidx ++ [i0]) 0 with
    | error e => rw [hs] at h; cases h
    | ok subInfos =>
      rw [hs] at h
      cases hr : buildFieldInfo rest cidx ptag pidx (i0 + 1) with
      | error e => rw [hr] at h; cases h
      | ok restInfos =>
        rw [hr] at h
        cases h
        have hsub := ihs (joinTag ptag (tagOr name tag)) (pidx ++ [i0]) 0 subInfos ht.1.2 hs
        rw [preOf_joinTag ptag (tagOr name tag) ht.1.1] at hsub
        simp only [extractHeaders, List.map_append, hsub,
          ihr ptag pidx (i0 + 1) restInfos ht.2 hr]
  | consPtr name tag dflt sub rest ihs ihr =>
    intro ptag pidx i0 infos ht h
    simp only [tagsNonempty, Bool.and_eq_true, Bool.not_eq_eq_eq_not, Bool.not_true,
      decide_eq_false_iff_not] at ht
    simp only [buildFieldInfo] at h
    cases hs : buildFieldInfo sub cidx (joinTag ptag (tagOr name tag)) (pidx ++ [i0]) 0 with
    | error e => rw [hs] at h; cases h
    | ok subInfos =>
      rw [hs] at h
      cases hr : buildFieldInfo rest cidx ptag pidx (i0 + 1) with
      | error e => rw [hr] at h; cases h
      | ok restInfos =>
        rw [hr] at h
        cases h
        have hsub := ihs (joinTag ptag (tagOr name tag)) (pidx ++ [i0]) 0 subInfos ht.1.2 hs
        rw [preOf_joinTag ptag (tagOr name tag) ht.1.1] at hsub
        simp only [extractHeaders, List.map_append, hsub,
          ihr ptag pidx (i0 + 1) restInfos ht.2 hr]

theorem prependPath_comp (p q : List Nat) (inf : FieldInfo) :
    prependPath p (prependPath q inf) = prependPath (p ++ q) inf := by
  simp [prependPath]

theorem buildFieldInfo_pathPre (t : Fields) (cidx : String → Option Nat) :
    ∀ ptag pidx i0, buildFieldInfo t cidx ptag pidx i0 =
      Except.map (List.map (prependPath pidx)) (buildFieldInfo t cidx ptag [] i0) := by
  induction t with
  | nil => intro ptag pidx i0; rfl
  | consScalar name tag dflt k rest ih =>
    intro ptag pidx i0
    cases hg : getFieldSetter k with
    | error e => simp [buildFieldInfo, hg, Except.map]
    | ok k' =>
      have hLHS := ih ptag pidx (i0 + 1)
      cases hr : buildFieldInfo rest cidx ptag [] (i0 + 1) with
      | error e =>
        rw [hr] at hLHS
        simp only [buildFieldInfo, hg, hLHS, hr, Except.map]
      | ok restInfos =>
        rw [hr] at hLHS
        simp only [buildFieldInfo, hg, hLHS, hr, Except.map, List.map_cons]
        simp [prependPath]
  | consStruct name tag dflt sub rest ihs ihr =>
    intro ptag pidx i0
    have hsp := ihs (joinTag ptag (tagOr name tag)) (pidx ++ [i0]) 0
    have hsl := ihs (joinTag ptag (tagOr name tag)) ([i0]) 0
    have hrp := ihr ptag pidx (i0 + 1)
    cases hs : buildFieldInfo sub cidx (joinTag ptag (tagOr name tag)) [] 0 with
    | error e =>
      rw [hs] at hsp hsl
      simp only [buildFieldInfo, hsp, hsl, hs, List.nil_append, Except.map]
    | ok subInfos =>
      rw [hs] at hsp hsl
      cases hr : buildFieldInfo rest cidx ptag [] (i0 + 1) with
      | error e =>
        rw [hr] at hrp
        simp only [buildFieldInfo, hsp, hsl, hs, hrp, hr, List.nil_append, Except.map]
      | ok restInfos =>
        rw [hr] at hrp
        simp only [buildFieldInfo, hsp, hsl, hs, hrp, hr, List.nil_append, Except.map,
          List.map_append, List.map_map]
        congr 2
        apply List.map_congr_left
        intro inf _
        simp [Function.comp_apply, prependPath_comp]
  | consPtr name tag dflt sub rest ihs ihr =>
    intro ptag pidx i0
    have hsp := ihs (joinTag ptag (tagOr name tag)) (pidx ++ [i0]) 0
    have hsl := ihs (joinTag ptag (tagOr name tag)) ([i0]) 0
    have hrp := ihr ptag pidx (i0 + 1)
    cases hs : buildFieldInfo sub cidx (joinTag ptag (tagOr name tag)) [] 0 with
    | error e =>
      rw [hs] at hsp hsl
      simp only [buildFieldInfo, hsp, hsl, hs, List.nil_append, Except.map]
    | ok subInfos =>
      rw [hs] at hsp hsl
      cases hr : buildFieldInfo rest cidx ptag [] (i0 + 1) with
      | error e =>
        rw [hr] at hrp
        simp only [buildFieldInfo, hsp, hsl, hs, hrp, hr, List.nil_append, Except.map]
      | ok restInfos =>
        rw [hr] at hrp
        simp only [buildFieldInfo, hsp, hsl, hs, hrp, hr, List.nil_append, Except.map,
          List.map_append, List.map_map]
        congr 2
        apply List.map_congr_left
        intro inf _
        simp [Function.comp_apply, prependPath_comp]

/-! ## Path and fold commutation lemmas for `processRecord` -/

theorem getFieldSetter_inv {k k' : Kind} (h : getFieldSetter k = .ok k') :
    k' = k ∧ k ≠ .kOther := by
  cases k with
  | kOther => simp [getFieldSetter] at h
  | kString =>
    simp only [getFieldSetter, Except.ok.injEq] at h
    subst h
    exact ⟨rfl, by decide⟩
  | kInt =>
    simp only [getFieldSetter, Except.ok.injEq] at h
    subst h
    exact ⟨rfl, by decide⟩
  | kBool =>
    simp only [getFieldSetter, Except.ok.injEq] at h
    subst h
    exact ⟨rfl, by decide⟩

theorem leafKinds_length (t : Fields) : (leafKinds t).length = leafCount t := by
  induction t <;> simp_all [leafKinds, leafCount]

theorem supported_leafKinds (t : Fields) (h : supported t = true) :
    ∀ j, j < leafCount t → (leafKinds t).getD j .kOther ≠ .kOther := by
  induction t with
  | nil => intro j hj; simp [leafCount] at hj
  | consScalar name tag dflt k rest ih =>
    simp only [supported, Bool.and_eq_true, Bool.not_eq_eq_eq_not, Bool.not_true,
      decide_eq_false_iff_not] at h
    intro j hj
    cases j with
    | zero => simpa [leafKinds] using h.1
    | succ j =>
      simp only [leafKinds, List.getD_cons_succ]
      exact ih h.2 j (by simp [leafCount] at hj; omega)
  | consStruct name tag dflt sub rest ihs ihr =>
    simp only [supported, Bool.and_eq_true] at h
    intro j hj
    simp only [leafCount] at hj
    by_cases hlt : j < leafCount sub
    · rw [leafKinds, List.getD_append _ _ _ _ (by rw [leafKinds_length]; exact hlt)]
      exact ihs h.1 j hlt
    · rw [leafKinds, List.getD_append_right _ _ _ _ (by rw [leafKinds_length]; omega),
        leafKinds_length]
      exact ihr h.2 (j - leafCount sub) (by omega)
  | consPtr name tag dflt sub rest ihs ihr =>
    simp only [supported, Bool.and_eq_true] at h
    intro j hj
    simp only [leafCount] at hj
    by_cases hlt : j < leafCount sub
    · rw [leafKinds, List.getD_append _ _ _ _ (by rw [leafKinds_length]; exact hlt)]
      exact ihs h.1 j hlt
    · rw [leafKinds, List.getD_append_right _ _ _ _ (by rw [leafKinds_length]; omega),
        leafKinds_length]
      exact ihr h.2 (j - leafCount sub) (by omega)

theorem zeroScalars_getD (t : Fields) :
    ∀ j, j < leafCount t →
      (zeroScalars t).getD j (.str "") = zeroOf ((leafKinds t).getD j .kOther) := by
  induction t with
  | nil => intro j hj; simp [leafCount] at hj
  | consScalar name tag dflt k rest ih =>
    intro j hj
    cases j with
    | zero => simp [zeroScalars, leafKinds]
    | succ j =>
      simp only [zeroScalars, leafKinds, List.getD_cons_succ]
      exact ih j (by simp [leafCount] at hj; omega)
  | consStruct name tag dflt sub rest ihs ihr =>
    intro j hj
    simp only [leafCount] at hj
    by_cases hlt : j < leafCount sub
    · rw [zeroScalars, leafKinds,
        List.getD_append _ _ _ _ (by rw [zeroScalars_length]; exact hlt),
        List.getD_append _ _ _ _ (by rw [leafKinds_length]; exact hlt)]
      exact ihs j hlt
    · rw [zeroScalars, leafKinds,
        List.getD_append_right _ _ _ _ (by rw [zeroScalars_length]; omega),
        List.getD_append_right _ _ _ _ (by rw [leafKinds_length]; omega),
        zeroScalars_length, leafKinds_length]
      exact ihr (j - leafCount sub) (by omega)
  | consPtr name tag dflt sub rest ihs ihr =>
    intro j hj
    simp only [leafCount] at hj
    by_cases hlt : j < leafCount sub
    · rw [zeroScalars, leafKinds,
        List.getD_append _ _ _ _ (by rw [zeroScalars_length]; exact hlt),
        List.getD_append _ _ _ _ (by rw [leafKinds_length]; exact hlt)]
      exact ihs j hlt
    · rw [zeroScalars, leafKinds,
        List.getD_append_right _ _ _ _ (by rw [zeroScalars_length]; omega),
        List.getD_append_right _ _ _ _ (by rw [leafKinds_length]; omega),
        zeroScalars_length, leafKinds_length]
      exact ihr (j - leafCount sub) (by omega)

theorem allScalar_numFields (t : Fields) (h : allScalarF t = true) :
    numFields t = leafCount t := by
  induction t <;> simp_all [allScalarF, numFields, leafCount]

theorem extractValues_length (t : Fields) :
    ∀ v, wellTyped t v = true → nilSpansFlat t v = true →
      (extractValues t v).length = leafCount t := by
  induction t with
  | nil => intro v hw _; rw [wellTyped_nil_inv hw]; rfl
  | consScalar name tag dflt k rest ih =>
    intro v hw hf
    obtain ⟨sv, vrest, rfl, _, hr⟩ := wellTyped_scalar_inv hw
    simp only [nilSpansFlat] at hf
    simp [extractValues, leafCount, ih vrest hr hf]
  | consStruct name tag dflt sub rest ihs ihr =>
    intro v hw hf
    obtain ⟨vs, vrest, rfl, hs, hr⟩ := wellTyped_struct_inv hw
    simp only [nilSpansFlat, Bool.and_eq_true] at hf
    simp [extractValues, leafCount, ihs vs hs hf.1, ihr vrest hr hf.2]
  | consPtr name tag dflt sub rest ihs ihr =>
    intro v hw hf
    rcases wellTyped_ptr_inv hw with ⟨vrest, rfl, hr⟩ | ⟨vs, vrest, rfl, hs, hr⟩
    · simp only [nilSpansFlat, Bool.and_eq_true] at hf
      simp [extractValues, leafCount, ihr vrest hr hf.2,
        allScalar_numFields sub hf.1]
    · simp only [nilSpansFlat, Bool.and_eq_true] at hf
      simp [extractValues, leafCount, ihs vs hs hf.1, ihr vrest hr hf.2]

theorem setAtPath_scalar (vpre : Vals) (sv : Scalar) (vtail : Vals)
    (f : Scalar → Except String Scalar) :
    setAtPath (appF vpre (.consScalar sv vtail)) [lenF vpre] f =
      Except.map (fun sv' => appF vpre (.consScalar sv' vtail)) (f sv) := by
  induction vpre with
  | nil =>
    cases hf : f sv <;> simp [appF, lenF, setAtPath, hf, Except.map]
  | consScalar sv0 rest ih =>
    cases hf : f sv <;> rw [hf] at ih <;>
      simp [appF, lenF, setAtPath, ih, Except.map]
  | consStruct vs0 rest ihs ihr =>
    cases hf : f sv <;> rw [hf] at ihr <;>
      simp [appF, lenF, setAtPath, ihr, Except.map]
  | consPtrNil rest ih =>
    cases hf : f sv <;> rw [hf] at ih <;>
      simp [appF, lenF, setAtPath, ih, Except.map]
  | consPtr vs0 rest ihs ihr =>
    cases hf : f sv <;> rw [hf] at ihr <;>
      simp [appF, lenF, setAtPath, ihr, Except.map]

theorem setAtPath_struct (vpre vs vtail : Vals) (p : List Nat)
    (f : Scalar → Except String Scalar) :
    setAtPath (appF vpre (.consStruct vs vtail)) (lenF vpre :: p) f =
      Except.map (fun vs' => appF vpre (.consStruct vs' vtail)) (setAtPath vs p f) := by
  induction vpre with
  | nil =>
    cases p with
    | nil => simp [appF, lenF, setAtPath, Except.map]
    | cons i q =>
      cases hf : setAtPath vs (i :: q) f <;>
        simp [appF, lenF, setAtPath, hf, Except.map]
  | consScalar sv0 rest ih =>
    cases hf : setAtPath vs p f <;> rw [hf] at ih <;>
      simp [appF, lenF, setAtPath, ih, Except.map]
  | consStruct vs0 rest ihs ihr =>
    cases hf : setAtPath vs p f <;> rw [hf] at ihr <;>
      simp [appF, lenF, setAtPath, ihr, Except.map]
  | consPtrNil rest ih =>
    cases hf : setAtPath vs p f <;> rw [hf] at ih <;>
      simp [appF, lenF, setAtPath, ih, Except.map]
  | consPtr vs0 rest ihs ihr =>
    cases hf : setAtPath vs p f <;> rw [hf] at ihr <;>
      simp [appF, lenF, setAtPath, ihr, Except.map]

theorem setAtPath_ptr (vpre vs vtail : Vals) (p : List Nat)
    (f : Scalar → Except String Scalar) :
    setAtPath (appF vpre (.consPtr vs vtail)) (lenF vpre :: p) f =
      Except.map (fun vs' => appF vpre (.consPtr vs' vtail)) (setAtPath vs p f) := by
  induction vpre with
  | nil =>
    cases p with
    | nil => simp [appF, lenF, setAtPath, Except.map]
    | cons i q =>
      cases hf : setAtPath vs (i :: q) f <;>
        simp [appF, lenF, setAtPath, hf, Except.map]
  | consScalar sv0 rest ih =>
    cases hf : setAtPath vs p f <;> rw [hf] at ih <;>
      simp [appF, lenF, setAtPath, ih, Except.map]
  | consStruct vs0 rest ihs ihr =>
    cases hf : setAtPath vs p f <;> rw [hf] at ihr <;>
      simp [appF, lenF, setAtPath, ihr, Except.map]
  | consPtrNil rest ih =>
    cases hf : setAtPath vs p f <;> rw [hf] at ih <;>
      simp [appF, lenF, setAtPath, ih, Except.map]
  | consPtr vs0 rest ihs ihr =>
    cases hf : setAtPath vs p f <;> rw [hf] at ihr <;>
      simp [appF, lenF, setAtPath, ihr, Except.map]

theorem applyInfos_append (a b : List FieldInfo) (v : Vals) (row : List String) :
    applyInfos v (a ++ b) row =
      match applyInfos v a row with
      | .error e => .error e
      | .ok v' => applyInfos v' b row := by
  induction a generalizing v with
  | nil => simp [applyInfos]
  | cons inf rest ih =>
    simp only [List.cons_append, applyInfos]
    cases applyInfo v inf row with
    | error e => rfl
    | ok v' => exact ih v'

theorem applyInfo_pre_struct (vpre vs vtail : Vals) (inf : FieldInfo)
    (row : List String) :
    applyInfo (appF vpre (.consStruct vs vtail)) (prependPath [lenF vpre] inf) row =
      Except.map (fun vs' => appF vpre (.consStruct vs' vtail)) (applyInfo vs inf row) := by
  simp only [applyInfo, prependPath, List.singleton_append]
  rw [setAtPath_struct]
  cases setAtPath vs inf.index
      (fun _ => runSetter inf.kind
        (if (if 0 ≤ inf.columnIndex ∧ inf.columnIndex < (row.length : Int) then
            row.getD inf.columnIndex.toNat "" else "") = "" then inf.defaultValue
         else if 0 ≤ inf.columnIndex ∧ inf.columnIndex < (row.length : Int) then
            row.getD inf.columnIndex.toNat "" else "")) with
  | error e => rfl
  | ok v' => rfl

theorem applyInfo_pre_ptr (vpre vs vtail : Vals) (inf : FieldInfo)
    (row : List String) :
    applyInfo (appF vpre (.consPtr vs vtail)) (prependPath [lenF vpre] inf) row =
      Except.map (fun vs' => appF vpre (.consPtr vs' vtail)) (applyInfo vs inf row) := by
  simp only [applyInfo, prependPath, List.singleton_append]
  rw [setAtPath_ptr]
  cases setAtPath vs inf.index
      (fun _ => runSetter inf.kind
        (if (if 0 ≤ inf.columnIndex ∧ inf.columnIndex < (row.length : Int) then
            row.getD inf.columnIndex.toNat "" else "") = "" then inf.defaultValue
         else if 0 ≤ inf.columnIndex ∧ inf.columnIndex < (row.length : Int) then
            row.getD inf.columnIndex.toNat "" else "")) with
  | error e => rfl
  | ok v' => rfl

theorem applyInfos_pre_struct (subInfos : List FieldInfo) :
    ∀ (vpre vs vtail : Vals) (row : List String),
      applyInfos (appF vpre (.consStruct vs vtail))
        (subInfos.map (prependPath [lenF vpre])) row =
      Except.map (fun vs' => appF vpre (.consStruct vs' vtail))
        (applyInfos vs subInfos row) := by
  induction subInfos with
  | nil => intro vpre vs vtail row; simp [applyInfos, Except.map]
  | cons inf rest ih =>
    intro vpre vs vtail row
    simp only [List.map_cons, applyInfos, applyInfo_pre_struct]
    cases hf : applyInfo vs inf row with
    | error e => simp [Except.map]
    | ok vs' =>
      simp only [Except.map]
      exact ih vpre vs' vtail row

theorem applyInfos_pre_ptr (subInfos : List FieldInfo) :
    ∀ (vpre vs vtail : Vals) (row : List String),
      applyInfos (appF vpre (.consPtr vs vtail))
        (subInfos.map (prependPath [lenF vpre])) row =
      Except.map (fun vs' => appF vpre (.consPtr vs' vtail))
        (applyInfos vs subInfos row) := by
  induction subInfos with
  | nil => intro vpre vs vtail row; simp [applyInfos, Except.map]
  | cons inf rest ih =>
    intro vpre vs vtail row
    simp only [List.map_cons, applyInfos, applyInfo_pre_ptr]
    cases hf : applyInfo vs inf row with
    | error e => simp [Except.map]
    | ok vs' =>
      simp only [Except.map]
      exact ih vpre vs' vtail row

theorem applyInfo_scalar_ok (name : String) (idx : List Nat) (ci : Int) (k : Kind)
    (dflt : String) (vpre : Vals) (svc svt : Scalar) (vc : Vals) (row : List String)
    (c0 : Nat) (hidx : idx = [lenF vpre]) (hci : ci = (c0 : Int))
    (hset : runSetter k (if row.getD c0 "" = "" then dflt else row.getD c0 "") = .ok svt) :
    applyInfo (appF vpre (.consScalar svc vc)) (FieldInfo.mk name idx ci k dflt) row =
      .ok (appF vpre (.consScalar svt vc)) := by
  subst hidx hci
  have hraw : (if 0 ≤ ((c0 : Nat) : Int) ∧ ((c0 : Nat) : Int) < (row.length : Int) then
      row.getD ((c0 : Nat) : Int).toNat "" else "") = row.getD c0 "" := by
    by_cases hlt : c0 < row.length
    · rw [if_pos ⟨by exact_mod_cast Nat.zero_le c0, by exact_mod_cast hlt⟩,
        Int.toNat_ofNat]
    · rw [if_neg, List.getD_eq_default _ _ (by omega)]
      intro hcon
      exact hlt (by exact_mod_cast hcon.2)
  simp only [applyInfo, hraw]
  rw [setAtPath_scalar, hset]
  rfl

/-- Key reconstruction lemma: applying the bindings of shape `t` (resolved at
positions `lenF vpre`, columns `c0, c0+1, …`) to any well-typed sub-record
rebuilds exactly the target record whose leaves the row decodes to. -/
theorem applyInfos_reconstruct (t : Fields) :
    ∀ (cidx : String → Option Nat) (ptag : String) (c0 : Nat)
      (infos : List FieldInfo) (row : List String) (vpre vcur tgt : Vals),
      buildFieldInfo t cidx ptag [] (lenF vpre) = .ok infos →
      infos.map (·.columnIndex) =
        (List.range (leafCount t)).map (fun j => ((c0 + j : Nat) : Int)) →
      noDefaults t = true →
      wellTyped t vcur = true → noNilPtr vcur = true →
      wellTyped t tgt = true → noNilPtr tgt = true →
      (∀ j, j < leafCount t →
        runSetter ((leafKinds t).getD j .kOther) (row.getD (c0 + j) "") =
          .ok ((leaves t tgt).getD j (.str ""))) →
      applyInfos (appF vpre vcur) infos row = .ok (appF vpre tgt) := by
  induction t with
  | nil =>
    intro cidx ptag c0 infos row vpre vcur tgt hb hc hd hwc hnc hwt hnt hdec
    simp only [buildFieldInfo] at hb
    cases hb
    rw [wellTyped_nil_inv hwc, wellTyped_nil_inv hwt]
    rfl
  | consScalar name tag dflt k rest ih =>
    intro cidx ptag c0 infos row vpre vcur tgt hb hc hd hwc hnc hwt hnt hdec
    obtain ⟨svc, vc, rfl, hkc, hwc'⟩ := wellTyped_scalar_inv hwc
    obtain ⟨svt, vt, rfl, hkt, hwt'⟩ := wellTyped_scalar_inv hwt
    simp only [noNilPtr] at hnc hnt
    simp only [noDefaults, Bool.and_eq_true, decide_eq_true_eq] at hd
    simp only [buildFieldInfo] at hb
    cases hg : getFieldSetter k with
    | error e => rw [hg] at hb; cases hb
    | ok k' =>
      rw [hg] at hb
      obtain ⟨rfl, hko⟩ := getFieldSetter_inv hg
      cases hrest : buildFieldInfo rest cidx ptag [] (lenF vpre + 1) with
      | error e => rw [hrest] at hb; cases hb
      | ok restInfos =>
        rw [hrest] at hb
        cases hb
        rw [leafCount, List.range_succ_eq_map, List.map_cons, List.map_cons,
          List.map_map] at hc
        simp only [List.cons.injEq] at hc
        obtain ⟨hci, hcrest⟩ := hc
        have hdec0 := hdec 0 (by simp [leafCount])
        simp only [leafKinds, leaves, List.getD_cons_zero, Nat.add_zero] at hdec0
        simp only [applyInfos]
        rw [show ([] : List Nat) ++ [lenF vpre] = [lenF vpre] from rfl]
        have hci' : (match cidx (joinTag ptag (tagOr name tag)) with
            | some n => (n : Int)
            | none => -1) = ((c0 : Nat) : Int) := by
          rw [hci, Nat.add_zero]
        rw [hci']
        rw [applyInfo_scalar_ok name [lenF vpre] ((c0 : Nat) : Int) k' dflt vpre svc
          svt vc row c0 rfl rfl
          (by rw [hd.1]
              by_cases hz : row.getD c0 "" = ""
              · rw [if_pos hz, ← hz]; exact hdec0
              · rw [if_neg hz]; exact hdec0)]
        have hstep : appF vpre (.consScalar svt vc) =
            appF (appF vpre (.consScalar svt .nil)) vc := by
          rw [appF_assoc]; rfl
        have hstep2 : appF vpre (.consScalar svt vt) =
            appF (appF vpre (.consScalar svt .nil)) vt := by
          rw [appF_assoc]; rfl
        rw [hstep, hstep2]
        apply ih cidx ptag (c0 + 1) restInfos row (appF vpre (.consScalar svt .nil))
          vc vt
        · rw [lenF_appF]
          simpa [lenF] using hrest
        · rw [hcrest]
          apply List.map_congr_left
          intro j _
          simp only [Function.comp_apply]
          congr 1
          omega
        · exact hd.2
        · exact hwc'
        · exact hnc
        · exact hwt'
        · exact hnt
        · intro j hj
          have := hdec (j + 1) (by simp only [leafCount]; omega)
          simp only [leafKinds, leaves, List.getD_cons_succ] at this
          rw [show c0 + 1 + j = c0 + (j + 1) from by omega]
          exact this
  | consStruct name tag dflt sub rest ihs ihr =>
    intro cidx ptag c0 infos row vpre vcur tgt hb hc hd hwc hnc hwt hnt hdec
    obtain ⟨vsc, vc, rfl, hsc, hwc'⟩ := wellTyped_struct_inv hwc
    obtain ⟨vst, vt, rfl, hst, hwt'⟩ := wellTyped_struct_inv hwt
    simp only [noNilPtr, Bool.and_eq_true] at hnc hnt
    simp only [noDefaults, Bool.and_eq_true] at hd
    simp only [buildFieldInfo] at hb
    cases hsP : buildFieldInfo sub cidx (joinTag ptag (tagOr name tag))
        ([] ++ [lenF vpre]) 0 with
    | error e => rw [hsP] at hb; cases hb
    | ok subP =>
      rw [hsP] at hb
      cases hrest : buildFieldInfo rest cidx ptag [] (lenF vpre + 1) with
      | error e => rw [hrest] at hb; cases hb
      | ok restInfos =>
        rw [hrest] at hb
        cases hb
        rw [List.nil_append] at hsP
        rw [buildFieldInfo_pathPre] at hsP
        cases hsl : buildFieldInfo sub cidx (joinTag ptag (tagOr name tag)) [] 0 with
        | error e => rw [hsl] at hsP; cases hsP
        | ok subInfos =>
          rw [hsl] at hsP
          simp only [Except.map] at hsP
          cases hsP
          have hlsub : subInfos.length = leafCount sub :=
            buildFieldInfo_length _ _ _ _ _ _ hsl
          have hlrest : restInfos.length = leafCount rest :=
            buildFieldInfo_length _ _ _ _ _ _ hrest
          rw [leafCount, List.range_add, List.map_append, List.map_append,
            List.map_map, List.map_map] at hc
          have hclen : (List.map ((fun x : FieldInfo => x.columnIndex) ∘
                prependPath [lenF vpre]) subInfos).length =
              (List.map ((fun j => ((c0 + j : Nat) : Int)))
                (List.range (leafCount sub))).length := by
            simp [hlsub]
          obtain ⟨hcsub, hcrest⟩ := List.append_inj hc hclen
          have hcsub' : subInfos.map (·.columnIndex) =
              (List.range (leafCount sub)).map (fun j => ((c0 + j : Nat) : Int)) := by
            rw [← hcsub]
            apply List.map_congr_left
            intro inf _
            simp [prependPath]
          rw [applyInfos_append]
          have hfirst := applyInfos_pre_struct subInfos vpre vsc vc row
          have hsubIH := ihs cidx (joinTag ptag (tagOr name tag)) c0 subInfos row
            .nil vsc vst (by simpa [lenF] using hsl) hcsub' hd.1 hsc hnc.1 hst hnt.1
            (by
              intro j hj
              have := hdec j (by simp only [leafCount]; omega)
              rw [leafKinds, List.getD_append _ _ _ _
                  (by rw [leafKinds_length]; exact hj),
                leaves, List.getD_append _ _ _ _
                  (by rw [leaves_length sub vst hst]; exact hj)] at this
              exact this)
          rw [show appF Vals.nil vsc = vsc from rfl,
            show appF Vals.nil vst = vst from rfl] at hsubIH
          rw [hsubIH] at hfirst
          rw [hfirst]
          simp only [Except.map]
          have hstep : appF vpre (.consStruct vst vc) =
              appF (appF vpre (.consStruct vst .nil)) vc := by
            rw [appF_assoc]; rfl
          have hstep2 : appF vpre (.consStruct vst vt) =
              appF (appF vpre (.consStruct vst .nil)) vt := by
            rw [appF_assoc]; rfl
          rw [hstep, hstep2]
          apply ihr cidx ptag (c0 + leafCount sub) restInfos row
            (appF vpre (.consStruct vst .nil)) vc vt
          · rw [lenF_appF]
            simpa [lenF] using hrest
          · rw [hcrest]
            apply List.map_congr_left
            intro j _
            simp only [Function.comp_apply]
            congr 1
            omega
          · exact hd.2
          · exact hwc'
          · exact hnc.2
          · exact hwt'
          · exact hnt.2
          · intro j hj
            have := hdec (leafCount sub + j) (by simp only [leafCount]; omega)
            rw [leafKinds, List.getD_append_right _ _ _ _
                (by rw [leafKinds_length]; omega),
              leaves, List.getD_append_right _ _ _ _
                (by rw [leaves_length sub vst hst]; omega),
              leafKinds_length, leaves_length sub vst hst,
              Nat.add_sub_cancel_left] at this
            rw [show c0 + leafCount sub + j = c0 + (leafCount sub + j) from by omega]
            exact this
  | consPtr name tag dflt sub rest ihs ihr =>
    intro cidx ptag c0 infos row vpre vcur tgt hb hc hd hwc hnc hwt hnt hdec
    rcases wellTyped_ptr_inv hwc with ⟨vc, rfl, _⟩ | ⟨vsc, vc, rfl, hsc, hwc'⟩
    · simp [noNilPtr] at hnc
    rcases wellTyped_ptr_inv hwt with ⟨vt, rfl, _⟩ | ⟨vst, vt, rfl, hst, hwt'⟩
    · simp [noNilPtr] at hnt
    simp only [noNilPtr, Bool.and_eq_true] at hnc hnt
    simp only [noDefaults, Bool.and_eq_true] at hd
    simp only [buildFieldInfo] at hb
    cases hsP : buildFieldInfo sub cidx (joinTag ptag (tagOr name tag))
        ([] ++ [lenF vpre]) 0 with
    | error e => rw [hsP] at hb; cases hb
    | ok subP =>
      rw [hsP] at hb
      cases hrest : buildFieldInfo rest cidx ptag [] (lenF vpre + 1) with
      | error e => rw [hrest] at hb; cases hb
      | ok restInfos =>
        rw [hrest] at hb
        cases hb
        rw [List.nil_append] at hsP
        rw [buildFieldInfo_pathPre] at hsP
        cases hsl : buildFieldInfo sub cidx (joinTag ptag (tagOr name tag)) [] 0 with
        | error e => rw [hsl] at hsP; cases hsP
        | ok subInfos =>
          rw [hsl] at hsP
          simp only [Except.map] at hsP
          cases hsP
          have hlsub : subInfos.length = leafCount sub :=
            buildFieldInfo_length _ _ _ _ _ _ hsl
          rw [leafCount, List.range_add, List.map_append, List.map_append,
            List.map_map, List.map_map] at hc
          have hclen : (List.map ((fun x : FieldInfo => x.columnIndex) ∘
                prependPath [lenF vpre]) subInfos).length =
              (List.map ((fun j => ((c0 + j : Nat) : Int)))
                (List.range (leafCount sub))).length := by
            simp [hlsub]
          obtain ⟨hcsub, hcrest⟩ := List.append_inj hc hclen
          have hcsub' : subInfos.map (·.columnIndex) =
              (List.range (leafCount sub)).map (fun j => ((c0 + j : Nat) : Int)) := by
            rw [← hcsub]
            apply List.map_congr_left
            intro inf _
            simp [prependPath]
          rw [applyInfos_append]
          have hfirst := applyInfos_pre_ptr subInfos vpre vsc vc row
          have hsubIH := ihs cidx (joinTag ptag (tagOr name tag)) c0 subInfos row
            .nil vsc vst (by simpa [lenF] using hsl) hcsub' hd.1 hsc hnc.1 hst hnt.1
            (by
              intro j hj
              have := hdec j (by simp only [leafCount]; omega)
              rw [leafKinds, List.getD_append _ _ _ _
                  (by rw [leafKinds_length]; exact hj),
                leaves, List.getD_append _ _ _ _
                  (by rw [leaves_length sub vst hst]; exact hj)] at this
              exact this)
          rw [show appF Vals.nil vsc = vsc from rfl,
            show appF Vals.nil vst = vst from rfl] at hsubIH
          rw [hsubIH] at hfirst
          rw [hfirst]
          simp only [Except.map]
          have hstep : appF vpre (.consPtr vst vc) =
              appF (appF vpre (.consPtr vst .nil)) vc := by
            rw [appF_assoc]; rfl
          have hstep2 : appF vpre (.consPtr vst vt) =
              appF (appF vpre (.consPtr vst .nil)) vt := by
            rw [appF_assoc]; rfl
          rw [hstep, hstep2]
          apply ihr cidx ptag (c0 + leafCount sub) restInfos row
            (appF vpre (.consPtr vst .nil)) vc vt
          · rw [lenF_appF]
            simpa [lenF] using hrest
          · rw [hcrest]
            apply List.map_congr_left
            intro j _
            simp only [Function.comp_apply]
            congr 1
            omega
          · exact hd.2
          · exact hwc'
          · exact hnc.2
          · exact hwt'
          · exact hnt.2
          · intro j hj
            have := hdec (leafCount sub + j) (by simp only [leafCount]; omega)
            rw [leafKinds, List.getD_append_right _ _ _ _
                (by rw [leafKinds_length]; omega),
              leaves, List.getD_append_right _ _ _ _
                (by rw [leaves_length sub vst hst]; omega),
              leafKinds_length, leaves_length sub vst hst,
              Nat.add_sub_cancel_left] at this
            rw [show c0 + leafCount sub + j = c0 + (leafCount sub + j) from by omega]
            exact this

/-- Decoding each cell `extractValues` wrote recovers the record's leaves
(nil pointer spans decode to the zero scalars). -/
theorem encode_decode (t : Fields) :
    ∀ v, wellTyped t v = true → valsInRange v = true →
      nilSpansFlat t v = true → supported t = true →
      ∀ j, j < leafCount t →
        runSetter ((leafKinds t).getD j .kOther) ((extractValues t v).getD j "") =
          .ok ((leaves t v).getD j (.str "")) := by
  induction t with
  | nil =>
    intro v _ _ _ _ j hj
    simp [leafCount] at hj
  | consScalar name tag dflt k rest ih =>
    intro v hw hr hf hs j hj
    obtain ⟨sv, vrest, rfl, hk, hw'⟩ := wellTyped_scalar_inv hw
    simp only [valsInRange, Bool.and_eq_true] at hr
    simp only [nilSpansFlat] at hf
    simp only [supported, Bool.and_eq_true] at hs
    cases j with
    | zero =>
      simp only [leafKinds, extractValues, leaves, List.getD_cons_zero]
      rw [← hk]
      exact runSetter_format sv hr.1
    | succ j =>
      simp only [leafKinds, extractValues, leaves, List.getD_cons_succ]
      exact ih vrest hw' hr.2 hf hs.2 j (by simp only [leafCount] at hj; omega)
  | consStruct name tag dflt sub rest ihs ihr =>
    intro v hw hr hf hs j hj
    obtain ⟨vs, vrest, rfl, hws, hw'⟩ := wellTyped_struct_inv hw
    simp only [valsInRange, Bool.and_eq_true] at hr
    simp only [nilSpansFlat, Bool.and_eq_true] at hf
    simp only [supported, Bool.and_eq_true] at hs
    simp only [leafCount] at hj
    by_cases hlt : j < leafCount sub
    · rw [leafKinds, extractValues, leaves,
        List.getD_append _ _ _ _ (by rw [leafKinds_length]; exact hlt),
        List.getD_append _ _ _ _
          (by rw [extractValues_length sub vs hws hf.1]; exact hlt),
        List.getD_append _ _ _ _ (by rw [leaves_length sub vs hws]; exact hlt)]
      exact ihs vs hws hr.1 hf.1 hs.1 j hlt
    · rw [leafKinds, extractValues, leaves,
        List.getD_append_right _ _ _ _ (by rw [leafKinds_length]; omega),
        List.getD_append_right _ _ _ _
          (by rw [extractValues_length sub vs hws hf.1]; omega),
        List.getD_append_right _ _ _ _ (by rw [leaves_length sub vs hws]; omega),
        leafKinds_length, extractValues_length sub vs hws hf.1,
        leaves_length sub vs hws]
      exact ihr vrest hw' hr.2 hf.2 hs.2 (j - leafCount sub) (by omega)
  | consPtr name tag dflt sub rest ihs ihr =>
    intro v hw hr hf hs j hj
    simp only [supported, Bool.and_eq_true] at hs
    simp only [leafCount] at hj
    rcases wellTyped_ptr_inv hw with ⟨vrest, rfl, hw'⟩ | ⟨vs, vrest, rfl, hws, hw'⟩
    · simp only [valsInRange] at hr
      simp only [nilSpansFlat, Bool.and_eq_true] at hf
      have hnum : numFields sub = leafCount sub := allScalar_numFields sub hf.1
      have hek : leafKinds (Fields.consPtr name tag dflt sub rest) =
          leafKinds sub ++ leafKinds rest := rfl
      have hev : extractValues (Fields.consPtr name tag dflt sub rest)
          (.consPtrNil vrest) =
          List.replicate (numFields sub) "" ++ extractValues rest vrest := rfl
      have hel : leaves (Fields.consPtr name tag dflt sub rest) (.consPtrNil vrest) =
          zeroScalars sub ++ leaves rest vrest := rfl
      rw [hek, hev, hel]
      by_cases hlt : j < leafCount sub
      · have e1 : (leafKinds sub ++ leafKinds rest).getD j .kOther =
            (leafKinds sub).getD j .kOther :=
          List.getD_append _ _ _ _ (by rw [leafKinds_length]; exact hlt)
        have e2 : (List.replicate (numFields sub) "" ++ extractValues rest vrest).getD
            j "" = (List.replicate (numFields sub) "").getD j "" :=
          List.getD_append _ _ _ _ (by rw [List.length_replicate]; omega)
        have e3 : (zeroScalars sub ++ leaves rest vrest).getD j (.str "") =
            (zeroScalars sub).getD j (.str "") :=
          List.getD_append _ _ _ _ (by rw [zeroScalars_length]; exact hlt)
        have e4 : (List.replicate (numFields sub) "").getD j "" = "" := by
          rw [List.getD_eq_getElem _ _ (by rw [List.length_replicate]; omega),
            List.getElem_replicate]
        rw [e1, e2, e3, e4]
        rw [runSetter_empty _ (supported_leafKinds sub hs.1 j hlt),
          zeroScalars_getD sub j hlt]
      · have e1 : (leafKinds sub ++ leafKinds rest).getD j .kOther =
            (leafKinds rest).getD (j - (leafKinds sub).length) .kOther :=
          List.getD_append_right _ _ _ _ (by rw [leafKinds_length]; omega)
        have e2 : (List.replicate (numFields sub) "" ++ extractValues rest vrest).getD
            j "" = (extractValues rest vrest).getD
              (j - (List.replicate (numFields sub) "").length) "" :=
          List.getD_append_right _ _ _ _ (by rw [List.length_replicate]; omega)
        have e3 : (zeroScalars sub ++ leaves rest vrest).getD j (.str "") =
            (leaves rest vrest).getD (j - (zeroScalars sub).length) (.str "") :=
          List.getD_append_right _ _ _ _ (by rw [zeroScalars_length]; omega)
        rw [e1, e2, e3, leafKinds_length, List.length_replicate, zeroScalars_length,
          hnum]
        exact ihr vrest hw' hr hf.2 hs.2 (j - leafCount sub) (by omega)
    · simp only [valsInRange, Bool.and_eq_true] at hr
      simp only [nilSpansFlat, Bool.and_eq_true] at hf
      by_cases hlt : j < leafCount sub
      · rw [leafKinds, extractValues, leaves,
          List.getD_append _ _ _ _ (by rw [leafKinds_length]; exact hlt),
          List.getD_append _ _ _ _
            (by rw [extractValues_length sub vs hws hf.1]; exact hlt),
          List.getD_append _ _ _ _ (by rw [leaves_length sub vs hws]; exact hlt)]
        exact ihs vs hws hr.1 hf.1 hs.1 j hlt
      · rw [leafKinds, extractValues, leaves,
          List.getD_append_right _ _ _ _ (by rw [leafKinds_length]; omega),
          List.getD_append_right _ _ _ _
            (by rw [extractValues_length sub vs hws hf.1]; omega),
          List.getD_append_right _ _ _ _ (by rw [leaves_length sub vs hws]; omega),
          leafKinds_length, extractValues_length sub vs hws hf.1,
          leaves_length sub vs hws]
        exact ihr vrest hw' hr.2 hf.2 hs.2 (j - leafCount sub) (by omega)

/-! ## Column index lemmas -/

theorem bciFrom_shift (l : List String) :
    ∀ i0 name, buildColumnIndexFrom l i0 name =
      (buildColumnIndexFrom l 0 name).map (· + i0) := by
  induction l with
  | nil => intro i0 name; rfl
  | cons h rest ih =>
    intro i0 name
    rw [buildColumnIndexFrom, buildColumnIndexFrom, ih (i0 + 1), ih 1]
    cases hb : buildColumnIndexFrom rest 0 name with
    | some j =>
      simp only [Option.map, Option.some.injEq]
      omega
    | none =>
      simp only [Option.map]
      by_cases he : h = name
      · simp [he]
      · simp [he]

theorem bciFrom_not_mem (l : List String) (name : String) (h : name ∉ l) :
    ∀ i0, buildColumnIndexFrom l i0 name = none := by
  induction l with
  | nil => intro i0; rfl
  | cons x rest ih =>
    intro i0
    simp only [List.mem_cons, not_or] at h
    rw [buildColumnIndexFrom, ih h.2]
    simp [Ne.symm h.1]

theorem bci_nodup_get (l : List String) (h : l.Nodup) :
    ∀ j, j < l.length → buildColumnIndex l (l.getD j "") = some j := by
  induction l with
  | nil => intro j hj; simp at hj
  | cons x rest ih =>
    intro j hj
    simp only [List.nodup_cons] at h
    cases j with
    | zero =>
      simp only [List.getD_cons_zero, buildColumnIndex, buildColumnIndexFrom]
      rw [bciFrom_not_mem rest x h.1 1]
      simp
    | succ j =>
      simp only [List.getD_cons_succ, buildColumnIndex, buildColumnIndexFrom]
      rw [bciFrom_shift rest 1]
      have := ih h.2 j (by simpa using hj)
      rw [buildColumnIndex] at this
      rw [this]
      rfl

theorem headers_lookup_range (l : List String) (h : l.Nodup) :
    l.map (lookupInt (buildColumnIndex l)) =
      (List.range l.length).map (fun j => ((0 + j : Nat) : Int)) := by
  apply List.ext_getElem (by simp)
  intro n h1 h2
  simp only [List.getElem_map, List.getElem_range]
  have hn : n < l.length := by simpa using h1
  have := bci_nodup_get l h n hn
  rw [List.getD_eq_getElem _ _ hn] at this
  rw [lookupInt, this]
  simp

/-! ## noNilPtr preservation through materialization -/

theorem setAtPath_noNil (v : Vals) :
    ∀ p f v', setAtPath v p f = .ok v' → noNilPtr v = true → noNilPtr v' = true := by
  induction v with
  | nil =>
    intro p f v' h _
    cases p with
    | nil => simp [setAtPath] at h
    | cons i q => cases i <;> simp [setAtPath] at h
  | consScalar sv rest ih =>
    intro p f v' h hn
    cases p with
    | nil => simp [setAtPath] at h
    | cons i q =>
      cases i with
      | zero =>
        cases q with
        | nil =>
          simp only [setAtPath] at h
          cases hf : f sv with
          | error e => rw [hf] at h; cases h
          | ok sv' =>
            rw [hf] at h
            cases h
            simpa [noNilPtr] using hn
        | cons a b => simp [setAtPath] at h
      | succ i =>
        simp only [setAtPath] at h
        cases hr : setAtPath rest (i :: q) f with
        | error e => rw [hr] at h; cases h
        | ok r' =>
          rw [hr] at h
          cases h
          simp only [noNilPtr] at hn ⊢
          exact ih _ f r' hr hn
  | consStruct vs rest ihs ihr =>
    intro p f v' h hn
    simp only [noNilPtr, Bool.and_eq_true] at hn
    cases p with
    | nil => simp [setAtPath] at h
    | cons i q =>
      cases i with
      | zero =>
        simp only [setAtPath] at h
        cases hr : setAtPath vs q f with
        | error e => rw [hr] at h; cases h
        | ok vs' =>
          rw [hr] at h
          cases h
          simp only [noNilPtr, Bool.and_eq_true]
          exact ⟨ihs _ f vs' hr hn.1, hn.2⟩
      | succ i =>
        simp only [setAtPath] at h
        cases hr : setAtPath rest (i :: q) f with
        | error e => rw [hr] at h; cases h
        | ok r' =>
          rw [hr] at h
          cases h
          simp only [noNilPtr, Bool.and_eq_true]
          exact ⟨hn.1, ihr _ f r' hr hn.2⟩
  | consPtrNil rest ih =>
    intro p f v' h hn
    simp [noNilPtr] at hn
  | consPtr vs rest ihs ihr =>
    intro p f v' h hn
    simp only [noNilPtr, Bool.and_eq_true] at hn
    cases p with
    | nil => simp [setAtPath] at h
    | cons i q =>
      cases i with
      | zero =>
        simp only [setAtPath] at h
        cases hr : setAtPath vs q f with
        | error e => rw [hr] at h; cases h
        | ok vs' =>
          rw [hr] at h
          cases h
          simp only [noNilPtr, Bool.and_eq_true]
          exact ⟨ihs _ f vs' hr hn.1, hn.2⟩
      | succ i =>
        simp only [setAtPath] at h
        cases hr : setAtPath rest (i :: q) f with
        | error e => rw [hr] at h; cases h
        | ok r' =>
          rw [hr] at h
          cases h
          simp only [noNilPtr, Bool.and_eq_true]
          exact ⟨hn.1, ihr _ f r' hr hn.2⟩

theorem applyInfo_noNil (v : Vals) (inf : FieldInfo) (row : List String) (v' : Vals)
    (h : applyInfo v inf row = .ok v') (hn : noNilPtr v = true) :
    noNilPtr v' = true := by
  simp only [applyInfo] at h
  cases hs : setAtPath v inf.index (fun _ => runSetter inf.kind
      (if (if 0 ≤ inf.columnIndex ∧ inf.columnIndex < (row.length : Int) then
          row.getD inf.columnIndex.toNat "" else "") = "" then inf.defaultValue
       else if 0 ≤ inf.columnIndex ∧ inf.columnIndex < (row.length : Int) then
          row.getD inf.columnIndex.toNat "" else "")) with
  | error e => rw [hs] at h; cases h
  | ok w =>
    rw [hs] at h
    cases h
    exact setAtPath_noNil v _ _ _ hs hn

theorem applyInfos_noNil (infos : List FieldInfo) :
    ∀ v row v', applyInfos v infos row = .ok v' → noNilPtr v = true →
      noNilPtr v' = true := by
  induction infos with
  | nil =>
    intro v row v' h hn
    simp only [applyInfos] at h
    cases h
    exact hn
  | cons inf rest ih =>
    intro v row v' h hn
    simp only [applyInfos] at h
    cases ha : applyInfo v inf row with
    | error e => rw [ha] at h; cases h
    | ok w =>
      rw [ha] at h
      exact ih w row v' h (applyInfo_noNil v inf row w ha hn)

theorem materializeRecord_noNil (t : Fields) (infos : List FieldInfo)
    (row : List String) (r : Vals) (h : materializeRecord t infos row = .ok r) :
    noNilPtr r = true :=
  applyInfos_noNil infos _ row r h (noNilPtr_initZero t)

/-! ## Specification-side column naming (for the naming claim) -/

/-- Join the tag-name components of a leaf's ancestor chain with `_`,
following the spec's words. -/
def joinPath : List String → String
  | [] => ""
  | [a] => a
  | a :: rest => a ++ "_" ++ joinPath rest

/-- The depth-first tag-name paths of a shape's leaves, following the spec's
words: each leaf's ancestors' tag names (tag falling back to field name),
innermost last. -/
def specTagPaths : Fields → List (List String)
  | .nil => []
  | .consScalar name tag _ _ rest => [tagOr name tag] :: specTagPaths rest
  | .consStruct name tag _ sub rest =>
    (specTagPaths sub).map (tagOr name tag :: ·) ++ specTagPaths rest
  | .consPtr name tag _ sub rest =>
    (specTagPaths sub).map (tagOr name tag :: ·) ++ specTagPaths rest

theorem specTagPaths_ne_nil (t : Fields) : ∀ p ∈ specTagPaths t, p ≠ [] := by
  induction t with
  | nil => intro p hp; simp [specTagPaths] at hp
  | consScalar name tag dflt k rest ih =>
    intro p hp
    simp only [specTagPaths, List.mem_cons] at hp
    rcases hp with rfl | hp
    · simp
    · exact ih p hp
  | consStruct name tag dflt sub rest ihs ihr =>
    intro p hp
    simp only [specTagPaths, List.mem_append, List.mem_map] at hp
    rcases hp with ⟨q, _, rfl⟩ | hp
    · simp
    · exact ihr p hp
  | consPtr name tag dflt sub rest ihs ihr =>
    intro p hp
    simp only [specTagPaths, List.mem_append, List.mem_map] at hp
    rcases hp with ⟨q, _, rfl⟩ | hp
    · simp
    · exact ihr p hp

theorem extractHeaders_specPaths (t : Fields) :
    ∀ pre, extractHeaders t pre = (specTagPaths t).map (fun p => pre ++ joinPath p) := by
  induction t with
  | nil => intro pre; rfl
  | consScalar name tag dflt k rest ih =>
    intro pre
    simp only [extractHeaders, specTagPaths, List.map_cons, ih pre, joinPath]
  | consStruct name tag dflt sub rest ihs ihr =>
    intro pre
    simp only [extractHeaders, specTagPaths, List.map_append, List.map_map,
      ihs (pre ++ tagOr name tag ++ "_"), ihr pre]
    congr 1
    apply List.map_congr_left
    intro q hq
    have hq' : q ≠ [] := specTagPaths_ne_nil sub q hq
    simp only [Function.comp_apply]
    cases q with
    | nil => exact absurd rfl hq'
    | cons a b =>
      show pre ++ tagOr name tag ++ "_" ++ joinPath (a :: b) =
        pre ++ joinPath (tagOr name tag :: a :: b)
      have hj : joinPath (tagOr name tag :: a :: b) =
          tagOr name tag ++ "_" ++ joinPath (a :: b) := rfl
      rw [hj]
      apply String.ext
      simp [String.data_append]
  | consPtr name tag dflt sub rest ihs ihr =>
    intro pre
    simp only [extractHeaders, specTagPaths, List.map_append, List.map_map,
      ihs (pre ++ tagOr name tag ++ "_"), ihr pre]
    congr 1
    apply List.map_congr_left
    intro q hq
    have hq' : q ≠ [] := specTagPaths_ne_nil sub q hq
    simp only [Function.comp_apply]
    cases q with
    | nil => exact absurd rfl hq'
    | cons a b =>
      show pre ++ tagOr name tag ++ "_" ++ joinPath (a :: b) =
        pre ++ joinPath (tagOr name tag :: a :: b)
      have hj : joinPath (tagOr name tag :: a :: b) =
          tagOr name tag ++ "_" ++ joinPath (a :: b) := rfl
      rw [hj]
      apply String.ext
      simp [String.data_append]

/-! ## End-to-end glue: materialization inverts encoding, pipeline traces -/

theorem extractHeaders_length (t : Fields) :
    ∀ pre, (extractHeaders t pre).length = leafCount t := by
  induction t with
  | nil => intro pre; rfl
  | consScalar name tag dflt k rest ih =>
    intro pre; simp [extractHeaders, leafCount, ih]
  | consStruct name tag dflt sub rest ihs ihr =>
    intro pre; simp [extractHeaders, leafCount, ihs, ihr]
  | consPtr name tag dflt sub rest ihs ihr =>
    intro pre; simp [extractHeaders, leafCount, ihs, ihr]

/-- Materializing the row `extractValues` encoded (under the Column Index of
the shape's own headers) rebuilds the record, nil pointer sub-records
replaced by their zero-valued allocation. -/
theorem materialize_extract (t : Fields) (v : Vals)
    (hw : wellTyped t v = true) (hr : valsInRange v = true)
    (hf : nilSpansFlat t v = true) (hsup : supported t = true)
    (hd : noDefaults t = true) (ht : tagsNonempty t = true)
    (hnodup : (extractHeaders t "").Nodup) (infos : List FieldInfo)
    (hb : buildFieldInfo t (buildColumnIndex (extractHeaders t "")) "" [] 0 =
      .ok infos) :
    materializeRecord t infos (extractValues t v) =
      .ok (initNestedPointers t v) := by
  have hcols := buildFieldInfo_columns t _ "" [] 0 infos ht hb
  rw [show preOf "" = "" from rfl,
    headers_lookup_range (extractHeaders t "") hnodup,
    extractHeaders_length t ""] at hcols
  have hmain := applyInfos_reconstruct t (buildColumnIndex (extractHeaders t ""))
    "" 0 infos (extractValues t v) .nil
    (initNestedPointers t (zeroVals t)) (initNestedPointers t v)
    (by simpa [lenF] using hb) hcols hd
    (wellTyped_initZero t hsup) (noNilPtr_initZero t)
    (wellTyped_init t v hsup hw) (noNilPtr_init t v hw)
    (by
      intro j hj
      rw [leaves_init t v hw, Nat.zero_add]
      exact encode_decode t v hw hr hf hsup j hj)
  rw [materializeRecord]
  exact hmain

/-- The maximal prefix of successfully read rows of a source. -/
def okPrefix : List (Except String (List String)) → List (List String)
  | [] => []
  | .ok r :: rest => r :: okPrefix rest
  | .error _ :: _ => []

theorem readLoop_submitted (t : Fields) (infos : List FieldInfo)
    (h : Option (Vals → Except String Unit)) :
    ∀ rows n sub res,
      (readLoop t infos h rows n sub res).2.1 = sub ++ okPrefix rows := by
  intro rows
  induction rows with
  | nil => intro n sub res; simp [readLoop, okPrefix]
  | cons x rest ih =>
    intro n sub res
    cases x with
    | error e => simp [readLoop, okPrefix]
    | ok row =>
      simp only [readLoop, okPrefix, ih]
      simp

theorem readLoop_all_ok (t : Fields) (infos : List FieldInfo)
    (h : Option (Vals → Except String Unit)) :
    ∀ (rows : List (List String)) n sub res,
      readLoop t infos h (rows.map .ok) n sub res =
        (.ok (), sub ++ rows,
          res ++ rows.map (fun row => processRecord t infos row h)) := by
  intro rows
  induction rows with
  | nil => intro n sub res; simp [readLoop]
  | cons row rest ih =>
    intro n sub res
    simp only [List.map_cons, readLoop, ih]
    simp

theorem readCSV_drained (t : Fields) (file : List (Except String (List String)))
    (opts : CsvOptions) : (readCSV t file opts).2.drained = true := by
  cases file with
  | nil => rfl
  | cons x rows =>
    cases x with
    | error e => rfl
    | ok headers =>
      rw [readCSV]
      cases buildFieldInfo t (buildColumnIndex headers) "" [] 0 with
      | error e => rfl
      | ok infos => rfl

theorem readCSV_submitted (t : Fields) (headers : List String)
    (rows : List (Except String (List String))) (opts : CsvOptions)
    (infos : List FieldInfo)
    (hb : buildFieldInfo t (buildColumnIndex headers) "" [] 0 = .ok infos) :
    (readCSV t (.ok headers :: rows) opts).2.submitted = okPrefix rows := by
  rw [readCSV, hb]
  simpa using readLoop_submitted t infos opts.handler rows 1 [] []

/-- The full round trip: writing records to a fresh file and reading the file
back materializes, in submission order, exactly the records with their nil
optional sub-records zero-allocated. -/
theorem writeRead_trace (t : Fields) (rs : List Vals) (opts : CsvOptions)
    (content : List (List String))
    (hne : rs ≠ [])
    (hwr : writeCSV t none rs = .ok content)
    (hw : ∀ r ∈ rs, wellTyped t r = true ∧ valsInRange r = true ∧
      nilSpansFlat t r = true)
    (hsup : supported t = true) (hd : noDefaults t = true)
    (ht : tagsNonempty t = true) (hnodup : (extractHeaders t "").Nodup)
    (hh : opts.handler = none) :
    (readCSV t (content.map .ok) opts).1 = .ok () ∧
    (readCSV t (content.map .ok) opts).2.results =
      rs.map (fun r => .ok (initNestedPointers t r)) := by
  cases rs with
  | nil => exact absurd rfl hne
  | cons r0 rtail =>
    simp only [writeCSV, openOrCreateFile, List.nil_append] at hwr
    cases hwr
    obtain ⟨infos, hb⟩ := buildFieldInfo_ok t (buildColumnIndex (extractHeaders t ""))
      hsup "" [] 0
    simp only [List.map_cons, readCSV, hb, hh]
    have hrows : (Except.ok (extractValues t r0) :
          Except String (List String)) ::
        List.map Except.ok (List.map (extractValues t) rtail) =
        ((r0 :: rtail).map (extractValues t)).map
          (Except.ok : List String → Except String (List String)) := by
      simp
    rw [hrows, readLoop_all_ok]
    refine ⟨rfl, ?_⟩
    simp only [List.nil_append, List.map_map]
    apply List.map_congr_left
    intro r hr
    obtain ⟨hwr', hrr, hfr⟩ := hw r hr
    simp only [Function.comp_apply, processRecord,
      materialize_extract t r hwr' hrr hfr hsup hd ht hnodup infos hb]

/-! ## Remaining helpers for the claim theorems -/

/-- Read counterpart of `setAtPath`: the scalar a field path addresses. -/
def pathToScalar : Vals → List Nat → Option Scalar
  | _, [] => none
  | .consScalar sv _, 0 :: rest =>
    match rest with
    | [] => some sv
    | _ :: _ => none
  | .consStruct vs _, 0 :: rest => pathToScalar vs rest
  | .consPtr vs _, 0 :: rest => pathToScalar vs rest
  | .consPtrNil _, 0 :: _ => none
  | .consScalar _ vrest, (i + 1) :: rest => pathToScalar vrest (i :: rest)
  | .consStruct _ vrest, (i + 1) :: rest => pathToScalar vrest (i :: rest)
  | .consPtrNil vrest, (i + 1) :: rest => pathToScalar vrest (i :: rest)
  | .consPtr _ vrest, (i + 1) :: rest => pathToScalar vrest (i :: rest)
  | .nil, _ :: _ => none

theorem setAtPath_error_of_pathToScalar (v : Vals) :
    ∀ p sv f e, pathToScalar v p = some sv → f sv = .error e →
      setAtPath v p f = .error e := by
  induction v with
  | nil =>
    intro p sv f e hp _
    cases p with
    | nil => simp [pathToScalar] at hp
    | cons i q => cases i <;> simp [pathToScalar] at hp
  | consScalar sv0 rest ih =>
    intro p sv f e hp hf
    cases p with
    | nil => simp [pathToScalar] at hp
    | cons i q =>
      cases i with
      | zero =>
        cases q with
        | nil =>
          simp only [pathToScalar, Option.some.injEq] at hp
          subst hp
          simp [setAtPath, hf]
        | cons a b => simp [pathToScalar] at hp
      | succ i =>
        simp only [pathToScalar] at hp
        simp only [setAtPath, ih _ sv f e hp hf]
  | consStruct vs rest ihs ihr =>
    intro p sv f e hp hf
    cases p with
    | nil => simp [pathToScalar] at hp
    | cons i q =>
      cases i with
      | zero =>
        simp only [pathToScalar] at hp
        simp only [setAtPath, ihs _ sv f e hp hf]
      | succ i =>
        simp only [pathToScalar] at hp
        simp only [setAtPath, ihr _ sv f e hp hf]
  | consPtrNil rest ih =>
    intro p sv f e hp hf
    cases p with
    | nil => simp [pathToScalar] at hp
    | cons i q =>
      cases i with
      | zero => simp [pathToScalar] at hp
      | succ i =>
        simp only [pathToScalar] at hp
        simp only [setAtPath, ih _ sv f e hp hf]
  | consPtr vs rest ihs ihr =>
    intro p sv f e hp hf
    cases p with
    | nil => simp [pathToScalar] at hp
    | cons i q =>
      cases i with
      | zero =>
        simp only [pathToScalar] at hp
        simp only [setAtPath, ihs _ sv f e hp hf]
      | succ i =>
        simp only [pathToScalar] at hp
        simp only [setAtPath, ihr _ sv f e hp hf]

/-- Out-of-range (or missing) column positions make `processRecord`'s loop
body fall back to the default value without touching the row. -/
theorem applyInfo_oob (v : Vals) (info : FieldInfo) (row : List String)
    (h : ¬(0 ≤ info.columnIndex ∧ info.columnIndex < (row.length : Int))) :
    applyInfo v info row =
      match setAtPath v info.index (fun _ => runSetter info.kind info.defaultValue) with
      | .ok v' => .ok v'
      | .error e =>
        .error ("failed to set field value for field " ++ info.fieldName ++ ": " ++ e) := by
  simp only [applyInfo, if_neg h]
  rfl

theorem okPrefix_map_ok (rows : List (List String)) :
    okPrefix (rows.map .ok) = rows := by
  induction rows with
  | nil => rfl
  | cons r rest ih => simp [okPrefix, ih]

theorem str_empty_append (s : String) : "" ++ s = s := by
  apply String.ext
  simp [String.data_append]

/-! ## Concrete fixtures (the shapes of the repository's tests) -/

/-- The test suite's `Address` struct. -/
def addressT : Fields :=
  .consScalar "Street" "street" "" .kString
    (.consScalar "City" "city" "" .kString .nil)

/-- The test suite's `PersonPtr` struct (`Address *Address`). -/
def personPtrT : Fields :=
  .consScalar "Name" "name" "" .kString
    (.consScalar "Age" "age" "" .kInt
      (.consPtr "Address" "address" "" addressT .nil))

/-- A flat two-field struct (`Name string`, `Age int`). -/
def personFlatT : Fields :=
  .consScalar "Name" "name" "" .kString
    (.consScalar "Age" "age" "" .kInt .nil)

/-- A struct whose only field is an optional pointer to `struct { Count int }`. -/
def wrapT : Fields :=
  .consPtr "A" "a" "" (.consScalar "Count" "count" "" .kInt .nil) .nil

/-- A `PersonPtr` value with a present address. -/
def johnPtr : Vals :=
  .consScalar (.str "John")
    (.consScalar (.int 30)
      (.consPtr (.consScalar (.str "Main St")
        (.consScalar (.str "New York") .nil)) .nil))

theorem noNil_nilSpansFlat (t : Fields) :
    ∀ v, noNilPtr v = true → nilSpansFlat t v = true := by
  induction t with
  | nil => intro v _; cases v <;> rfl
  | consScalar name tag dflt k rest ih =>
    intro v hn
    cases v <;> simp_all [noNilPtr, nilSpansFlat]
  | consStruct name tag dflt sub rest ihs ihr =>
    intro v hn
    cases v <;> simp_all [noNilPtr, nilSpansFlat]
  | consPtr name tag dflt sub rest ihs ihr =>
    intro v hn
    cases v <;> simp_all [noNilPtr, nilSpansFlat]

/-! ## Claim theorems -/

/-- C1 counterexample: writing a record whose optional sub-record
(`*struct { Count int }`) is nil encodes the sub-record's column as the empty
string, not the int kind's zero literal `"0"`: the claim is false at this
input. -/
theorem claim_C1_counterexample :
    extractValues wrapT (.consPtrNil .nil) = [""] ∧
    formatScalar (zeroOf .kInt) = "0" ∧ ("" : String) ≠ "0" :=
  ⟨rfl, rfl, by decide⟩

/-- Mask over the cells `extractValues` emits, `true` exactly at the column
positions lying inside a nil optional sub-record's span (the Go nil-pointer
branch emits one cell per direct field of the pointed-to struct type). -/
def nilSpanMask : Fields → Vals → List Bool
  | .nil, _ => []
  | .consScalar _ _ _ _ rest, .consScalar _ vrest =>
    false :: nilSpanMask rest vrest
  | .consStruct _ _ _ sub rest, .consStruct vs vrest =>
    nilSpanMask sub vs ++ nilSpanMask rest vrest
  | .consPtr _ _ _ sub rest, .consPtrNil vrest =>
    List.replicate (numFields sub) true ++ nilSpanMask rest vrest
  | .consPtr _ _ _ sub rest, .consPtr vs vrest =>
    nilSpanMask sub vs ++ nilSpanMask rest vrest
  | _, _ => []

/-- A `PersonPtr` value with a nil address. -/
def johnNilPtr : Vals :=
  .consScalar (.str "John") (.consScalar (.int 30) (.consPtrNil .nil))

/-- C1 (amended): for every record written by `WriteCSV` whose optional
nested field (pointer sub-record) is nil, the encoded data row contains, at
every column position of that sub-record's span, the empty string — the span
having one column per direct field of the pointed-to struct type — not the
kind's zero literal. -/
theorem claim_C1_amended (t : Fields) (v : Vals) (hw : wellTyped t v = true) :
    (nilSpanMask t v).length = (extractValues t v).length ∧
    (∀ j, (nilSpanMask t v).getD j false = true →
      (extractValues t v).getD j "" = "") := by
  induction t generalizing v with
  | nil =>
    rw [wellTyped_nil_inv hw]
    refine ⟨rfl, ?_⟩
    intro j hj
    simp [nilSpanMask] at hj
  | consScalar name tag dflt k rest ih =>
    obtain ⟨sv, vrest, rfl, _, hw2⟩ := wellTyped_scalar_inv hw
    obtain ⟨ihl, ihm⟩ := ih vrest hw2
    refine ⟨by simp [nilSpanMask, extractValues, ihl], ?_⟩
    intro j hj
    cases j with
    | zero => simp [nilSpanMask] at hj
    | succ j =>
      simp only [nilSpanMask, List.getD_cons_succ] at hj
      simp only [extractValues, List.getD_cons_succ]
      exact ihm j hj
  | consStruct name tag dflt sub rest ihs ihr =>
    obtain ⟨vs, vrest, rfl, hs, hw2⟩ := wellTyped_struct_inv hw
    obtain ⟨ihsl, ihsm⟩ := ihs vs hs
    obtain ⟨ihrl, ihrm⟩ := ihr vrest hw2
    have hm : nilSpanMask (Fields.consStruct name tag dflt sub rest)
        (.consStruct vs vrest) = nilSpanMask sub vs ++ nilSpanMask rest vrest := rfl
    have he : extractValues (Fields.consStruct name tag dflt sub rest)
        (.consStruct vs vrest) = extractValues sub vs ++ extractValues rest vrest := rfl
    rw [hm, he]
    refine ⟨by simp [ihsl, ihrl], ?_⟩
    intro j hj
    by_cases hlt : j < (nilSpanMask sub vs).length
    · rw [List.getD_append _ _ _ _ hlt] at hj
      rw [List.getD_append _ _ _ _ (by rw [← ihsl]; exact hlt)]
      exact ihsm j hj
    · rw [List.getD_append_right _ _ _ _ (by omega)] at hj
      rw [List.getD_append_right _ _ _ _ (by rw [← ihsl]; omega), ← ihsl]
      exact ihrm _ hj
  | consPtr name tag dflt sub rest ihs ihr =>
    rcases wellTyped_ptr_inv hw with ⟨vrest, rfl, hw2⟩ | ⟨vs, vrest, rfl, hs, hw2⟩
    · obtain ⟨ihrl, ihrm⟩ := ihr vrest hw2
      have hm : nilSpanMask (Fields.consPtr name tag dflt sub rest)
          (.consPtrNil vrest) =
          List.replicate (numFields sub) true ++ nilSpanMask rest vrest := rfl
      have he : extractValues (Fields.consPtr name tag dflt sub rest)
          (.consPtrNil vrest) =
          List.replicate (numFields sub) "" ++ extractValues rest vrest := rfl
      rw [hm, he]
      refine ⟨by simp [ihrl], ?_⟩
      intro j hj
      by_cases hlt : j < numFields sub
      · rw [List.getD_append _ _ _ _ (by rw [List.length_replicate]; exact hlt),
          List.getD_eq_getElem _ _ (by rw [List.length_replicate]; exact hlt),
          List.getElem_replicate]
      · rw [List.getD_append_right _ _ _ _
            (by rw [List.length_replicate]; omega)] at hj
        rw [List.getD_append_right _ _ _ _ (by rw [List.length_replicate]; omega)]
        rw [List.length_replicate] at hj ⊢
        exact ihrm _ hj
    · obtain ⟨ihsl, ihsm⟩ := ihs vs hs
      obtain ⟨ihrl, ihrm⟩ := ihr vrest hw2
      have hm : nilSpanMask (Fields.consPtr name tag dflt sub rest)
          (.consPtr vs vrest) = nilSpanMask sub vs ++ nilSpanMask rest vrest := rfl
      have he : extractValues (Fields.consPtr name tag dflt sub rest)
          (.consPtr vs vrest) = extractValues sub vs ++ extractValues rest vrest := rfl
      rw [hm, he]
      refine ⟨by simp [ihsl, ihrl], ?_⟩
      intro j hj
      by_cases hlt : j < (nilSpanMask sub vs).length
      · rw [List.getD_append _ _ _ _ hlt] at hj
        rw [List.getD_append _ _ _ _ (by rw [← ihsl]; exact hlt)]
        exact ihsm j hj
      · rw [List.getD_append_right _ _ _ _ (by omega)] at hj
        rw [List.getD_append_right _ _ _ _ (by rw [← ihsl]; omega), ← ihsl]
        exact ihrm _ hj

/-- C1 amended witness: the `PersonPtr` test shape with a nil address: the
span mask marks exactly the two address columns and both encoded cells are
empty strings. -/
theorem claim_C1_amended_witness :
    wellTyped personPtrT johnNilPtr = true ∧
    nilSpanMask personPtrT johnNilPtr = [false, false, true, true] ∧
    (extractValues personPtrT johnNilPtr).getD 2 "" = "" ∧
    (extractValues personPtrT johnNilPtr).getD 3 "" = "" :=
  ⟨by decide, by decide,
   (claim_C1_amended personPtrT johnNilPtr (by decide)).2 2 (by decide),
   (claim_C1_amended personPtrT johnNilPtr (by decide)).2 3 (by decide)⟩

/-- The failing input of C2: a well-formed header and one row whose `age`
cell does not parse as an integer. -/
def badFileC2 : List (Except String (List String)) :=
  [.ok ["name", "age"], .ok ["John", "abc"]]

/-- C2 (code-bug evidence): the task the pool ran for the bad row failed
with the wrapped parse error, yet `ReadCSV` itself returns success — the
loop ignores `AddTask`'s outcome and `defer pool.WaitAndStop()` discards any
error, so no per-row or handler error can reach the caller. -/
theorem claim_C2_code_bug :
    (readCSV personFlatT badFileC2 ⟨none, 1⟩).1 = .ok () ∧
    (readCSV personFlatT badFileC2 ⟨none, 1⟩).2.results =
      [.error ("failed to set field value for field Age: error parsing int value abc: strconv.ParseInt: parsing \"abc\": invalid syntax")] :=
  ⟨rfl, rfl⟩

/-- C3 counterexample: the round-trip law fails as stated for a record with
a nil optional sub-record: the written file reads back as a record with a
zero-valued allocated sub-record, not the original nil. -/
theorem claim_C3_counterexample :
    writeCSV wrapT none [.consPtrNil .nil] = .ok [["a_count"], [""]] ∧
    (readCSV wrapT [.ok ["a_count"], .ok [""]] ⟨none, 1⟩).2.results =
      [.ok (.consPtr (.consScalar (.int 0) .nil) .nil)] ∧
    (Vals.consPtr (.consScalar (.int 0) .nil) .nil) ≠ .consPtrNil .nil :=
  ⟨rfl, rfl, by decide⟩

/-- C3 (amended): for every non-empty record sequence of a supported shape
with distinct, non-empty column names, no `default` tags, int64-ranged
integers and no nil optional sub-records, writing to a fresh path and
reading back at concurrency 1 materializes exactly the original records, in
order. -/
theorem claim_C3_amended (t : Fields) (rs : List Vals) (opts : CsvOptions)
    (content : List (List String))
    (hne : rs ≠ []) (hwr : writeCSV t none rs = .ok content)
    (hw : ∀ r ∈ rs, wellTyped t r = true ∧ valsInRange r = true ∧
      noNilPtr r = true)
    (hsup : supported t = true) (hd : noDefaults t = true)
    (ht : tagsNonempty t = true) (hnodup : (extractHeaders t "").Nodup)
    (hh : opts.handler = none) :
    (readCSV t (content.map .ok) opts).1 = .ok () ∧
    (readCSV t (content.map .ok) opts).2.results = rs.map .ok := by
  have hw' : ∀ r ∈ rs, wellTyped t r = true ∧ valsInRange r = true ∧
      nilSpansFlat t r = true := by
    intro r hr
    obtain ⟨h1, h2, h3⟩ := hw r hr
    exact ⟨h1, h2, noNil_nilSpansFlat t r h3⟩
  obtain ⟨ha, hb⟩ := writeRead_trace t rs opts content hne hwr hw' hsup hd ht
    hnodup hh
  refine ⟨ha, ?_⟩
  rw [hb]
  apply List.map_congr_left
  intro r hr
  rw [init_id t r (hw r hr).1 (hw r hr).2.2]

/-- C3 amended witness: the test suite's `PersonPtr` record written then
read back at concurrency 1 yields exactly the original record. -/
theorem claim_C3_amended_witness :
    ([johnPtr] ≠ ([] : List Vals)) ∧
    (readCSV personPtrT
      ([["name", "age", "address_street", "address_city"],
        ["John", "30", "Main St", "New York"]].map .ok) ⟨none, 1⟩).1 = .ok () ∧
    (readCSV personPtrT
      ([["name", "age", "address_street", "address_city"],
        ["John", "30", "Main St", "New York"]].map .ok) ⟨none, 1⟩).2.results =
      [.ok johnPtr] := by
  have h := claim_C3_amended personPtrT [johnPtr] ⟨none, 1⟩
    [["name", "age", "address_street", "address_city"],
     ["John", "30", "Main St", "New York"]]
    (by decide) rfl
    (by
      intro r hr
      simp only [List.mem_singleton] at hr
      subst hr
      exact ⟨by decide, by decide, by decide⟩)
    (by decide) (by decide) (by decide) (by decide) rfl
  exact ⟨by decide, h.1, h.2⟩

/-- C4: a scalar column name absent from the Column Index never fails
resolution (resolution fails only for unsupported kinds); the field binds
position `-1` with its declared default; and on every data row such a
binding decodes the default value, the kind's zero literal substituting for
an empty default. -/
theorem claim_C4 :
    (∀ (t : Fields) (cidx : String → Option Nat) ptag pidx i0,
      supported t = true →
      ∃ infos, buildFieldInfo t cidx ptag pidx i0 = .ok infos) ∧
    (∀ (name tag dflt : String) (k : Kind) (rest : Fields)
      (cidx : String → Option Nat) ptag pidx i0 infos,
      cidx (joinTag ptag (tagOr name tag)) = none →
      buildFieldInfo (.consScalar name tag dflt k rest) cidx ptag pidx i0 =
        .ok infos →
      ∃ restInfos,
        infos = FieldInfo.mk name (pidx ++ [i0]) (-1) k dflt :: restInfos) ∧
    (∀ (v : Vals) (info : FieldInfo) (row : List String),
      info.columnIndex = -1 →
      applyInfo v info row =
        match setAtPath v info.index (fun _ => runSetter info.kind info.defaultValue) with
        | .ok v' => .ok v'
        | .error e =>
          .error ("failed to set field value for field " ++ info.fieldName ++
            ": " ++ e)) ∧
    (∀ k : Kind, k ≠ .kOther → runSetter k "" = .ok (zeroOf k)) := by
  refine ⟨?_, ?_, ?_, runSetter_empty⟩
  · intro t cidx ptag pidx i0 hs
    exact buildFieldInfo_ok t cidx hs ptag pidx i0
  · intro name tag dflt k rest cidx ptag pidx i0 infos hnone hb
    simp only [buildFieldInfo, hnone] at hb
    cases hg : getFieldSetter k with
    | error e => rw [hg] at hb; cases hb
    | ok k' =>
      rw [hg] at hb
      obtain ⟨rfl, _⟩ := getFieldSetter_inv hg
      cases hr : buildFieldInfo rest cidx ptag pidx (i0 + 1) with
      | error e => rw [hr] at hb; cases hb
      | ok restInfos =>
        rw [hr] at hb
        cases hb
        exact ⟨restInfos, rfl⟩
  · intro v info row hci
    apply applyInfo_oob
    rw [hci]
    push_neg
    intro hcon
    omega

/-- C4 witness: resolving `personFlatT` against a header with no columns at
all succeeds, and the empty default decodes to the integer zero literal. -/
theorem claim_C4_witness :
    supported personFlatT = true ∧
    (∃ infos, buildFieldInfo personFlatT (fun _ => none) "" [] 0 = .ok infos) ∧
    runSetter .kInt "" = .ok (.int 0) :=
  ⟨by decide,
   claim_C4.1 personFlatT (fun _ => none) "" [] 0 (by decide),
   claim_C4.2.2.2 .kInt (by decide)⟩

/-- C5: the column name of every leaf is the `_`-join of its ancestors' tag
names (tag falling back to the field name), and the write-side header
sequence and read-side binding sequence are the same depth-first flattening:
same length, and the binding at each position carries exactly the Column
Index position of the header at that position. -/
theorem claim_C5 (t : Fields) (ht : tagsNonempty t = true) :
    extractHeaders t "" = (specTagPaths t).map joinPath ∧
    (∀ (cidx : String → Option Nat) infos,
      buildFieldInfo t cidx "" [] 0 = .ok infos →
      infos.length = (extractHeaders t "").length ∧
      infos.map (·.columnIndex) = (extractHeaders t "").map (lookupInt cidx)) := by
  constructor
  · rw [extractHeaders_specPaths t ""]
    apply List.map_congr_left
    intro p _
    exact str_empty_append (joinPath p)
  · intro cidx infos hb
    refine ⟨?_, ?_⟩
    · rw [buildFieldInfo_length t cidx "" [] 0 infos hb, extractHeaders_length]
    · have := buildFieldInfo_columns t cidx "" [] 0 infos ht hb
      rwa [show preOf "" = "" from rfl] at this

/-- C5 witness: the nested `PersonPtr` shape's headers are the joined tag
paths. -/
theorem claim_C5_witness :
    tagsNonempty personPtrT = true ∧
    extractHeaders personPtrT "" = (specTagPaths personPtrT).map joinPath :=
  ⟨by decide, (claim_C5 personPtrT (by decide)).1⟩

/-- C6: the fresh record is allocated with every nested pointer non-nil
before any binding runs; every successfully materialized record is free of
nil sub-records; and `processRecord` hands exactly that materialized record
to the handler. -/
theorem claim_C6 (t : Fields) (infos : List FieldInfo) (row : List String)
    (r : Vals) (h : materializeRecord t infos row = .ok r) :
    noNilPtr (initNestedPointers t (zeroVals t)) = true ∧
    noNilPtr r = true ∧
    (∀ hnd : Vals → Except String Unit,
      processRecord t infos row (some hnd) =
        match hnd r with
        | .ok _ => .ok r
        | .error e => .error ("handler error: " ++ e)) := by
  refine ⟨noNilPtr_initZero t, materializeRecord_noNil t infos row r h, ?_⟩
  intro hnd
  simp only [processRecord, h]

/-- C6 witness: materializing the test row for `PersonPtr` (whose fresh
instance starts with a nil `Address`) yields the full record with a non-nil
address sub-record. -/
theorem claim_C6_witness :
    noNilPtr (initNestedPointers personPtrT (zeroVals personPtrT)) = true ∧
    noNilPtr johnPtr = true := by
  have h : materializeRecord personPtrT
      [FieldInfo.mk "Name" [0] 0 .kString "",
       FieldInfo.mk "Age" [1] 1 .kInt "",
       FieldInfo.mk "Street" [2, 0] 2 .kString "",
       FieldInfo.mk "City" [2, 1] 3 .kString ""]
      ["John", "30", "Main St", "New York"] = .ok johnPtr := rfl
  exact ⟨(claim_C6 _ _ _ _ h).1, (claim_C6 _ _ _ _ h).2.1⟩

/-- The failing input of C7: a header and a data row (line 2 of the file)
whose integer cell is a non-empty, non-numeric string. -/
def badFileC7 : List (Except String (List String)) :=
  [.ok ["score"], .ok ["oops"]]

/-- The single-int-field shape of the C7 scenario. -/
def scoreT : Fields := .consScalar "Score" "score" "" .kInt .nil

/-- C7 counterexample: the parse error for the bad cell in row 2 is exactly
this string; it contains no digit character at all, so it cannot name the
line (2) at which the failure occurred — the claim's "names the line" part
is false at this input. -/
theorem claim_C7_counterexample :
    (readCSV scoreT badFileC7 ⟨none, 1⟩).2.results =
      [.error ("failed to set field value for field Score: error parsing int value oops: strconv.ParseInt: parsing \"oops\": invalid syntax")] ∧
    (("failed to set field value for field Score: error parsing int value oops: strconv.ParseInt: parsing \"oops\": invalid syntax" : String).data.all
      (fun c => !c.isDigit)) = true :=
  ⟨rfl, by decide⟩

/-- C7 (amended): decoding a non-empty, non-parseable string in an integer
column fails, and the error message names the offending field and the raw
value — but not the line, which `processRecord` does not receive. -/
theorem claim_C7_amended (v : Vals) (info : FieldInfo) (row : List String)
    (sv : Scalar) (s e : String)
    (hk : info.kind = .kInt)
    (hin : 0 ≤ info.columnIndex ∧ info.columnIndex < (row.length : Int))
    (hs : row.getD info.columnIndex.toNat "" = s) (hne : s ≠ "")
    (hparse : goParseInt s = .error e)
    (hpath : pathToScalar v info.index = some sv) :
    applyInfo v info row = .error ("failed to set field value for field " ++
      info.fieldName ++ ": error parsing int value " ++ s ++ ": " ++ e) := by
  have hrun : runSetter info.kind s =
      .error ("error parsing int value " ++ s ++ ": " ++ e) := by
    rw [hk, runSetter]
    simp only [if_neg hne]
    rw [hparse]
  simp only [applyInfo, if_pos hin, hs, if_neg hne]
  rw [setAtPath_error_of_pathToScalar v info.index sv _ _ hpath hrun]
  exact congrArg Except.error (by apply String.ext; simp [String.data_append])

/-- C7 amended witness: the concrete `Score`/`oops` instance. -/
theorem claim_C7_amended_witness :
    applyInfo (.consScalar (.int 0) .nil) (FieldInfo.mk "Score" [0] 0 .kInt "")
      ["oops"] = .error ("failed to set field value for field Score" ++
        ": error parsing int value oops" ++
        ": strconv.ParseInt: parsing \"oops\": invalid syntax") := by
  have h := claim_C7_amended (.consScalar (.int 0) .nil)
    (FieldInfo.mk "Score" [0] 0 .kInt "") ["oops"] (.int 0) "oops"
    "strconv.ParseInt: parsing \"oops\": invalid syntax"
    rfl (by constructor <;> decide) rfl (by decide) rfl rfl
  rw [h]
  exact congrArg Except.error (by apply String.ext; simp [String.data_append])

/-- C8: the pool is drained on every exit path of `ReadCSV`, and once
resolution succeeds the rows submitted to it are exactly the successfully
read rows, in file order, each once (all rows, when every read succeeds). -/
theorem claim_C8 (t : Fields) (file : List (Except String (List String)))
    (opts : CsvOptions) :
    (readCSV t file opts).2.drained = true ∧
    (∀ headers rows infos, file = .ok headers :: rows →
      buildFieldInfo t (buildColumnIndex headers) "" [] 0 = .ok infos →
      (readCSV t file opts).2.submitted = okPrefix rows) ∧
    (∀ headers (rows : List (List String)) infos,
      file = .ok headers :: rows.map .ok →
      buildFieldInfo t (buildColumnIndex headers) "" [] 0 = .ok infos →
      (readCSV t file opts).2.submitted = rows) := by
  refine ⟨readCSV_drained t file opts, ?_, ?_⟩
  · intro headers rows infos hf hb
    subst hf
    exact readCSV_submitted t headers rows opts infos hb
  · intro headers rows infos hf hb
    subst hf
    rw [readCSV_submitted t headers _ opts infos hb, okPrefix_map_ok]

/-- C8 witness: a two-row file is submitted in order, both rows exactly
once, and the pool is drained. -/
theorem claim_C8_witness :
    (readCSV personFlatT
      [.ok ["name", "age"], .ok ["John", "30"], .ok ["Jane", "25"]]
      ⟨none, 2⟩).2.drained = true ∧
    (readCSV personFlatT
      [.ok ["name", "age"], .ok ["John", "30"], .ok ["Jane", "25"]]
      ⟨none, 2⟩).2.submitted = [["John", "30"], ["Jane", "25"]] := by
  have h := claim_C8 personFlatT
    [.ok ["name", "age"], .ok ["John", "30"], .ok ["Jane", "25"]] ⟨none, 2⟩
  exact ⟨h.1, h.2.2 ["name", "age"] [["John", "30"], ["Jane", "25"]]
    [FieldInfo.mk "Name" [0] 0 .kString "", FieldInfo.mk "Age" [1] 1 .kInt ""]
    rfl rfl⟩

/-- C9: `openOrCreateFile` appends to an existing file and creates a fresh
one otherwise, so a second `WriteCSV` against the same path leaves the first
call's rows in place as an unchanged prefix and adds its own header and rows
after them. -/
theorem claim_C9 (t : Fields) (rs1 rs2 : List Vals) (c1 : List (List String))
    (_h1 : writeCSV t none rs1 = .ok c1) (hne2 : rs2 ≠ []) :
    openOrCreateFile (some c1) = c1 ∧ openOrCreateFile none = [] ∧
    writeCSV t (some c1) rs2 =
      .ok (c1 ++ extractHeaders t "" :: rs2.map (extractValues t)) ∧
    (∀ c2, writeCSV t (some c1) rs2 = .ok c2 → c2.take c1.length = c1) := by
  have hw2 : writeCSV t (some c1) rs2 =
      .ok (c1 ++ extractHeaders t "" :: rs2.map (extractValues t)) := by
    cases rs2 with
    | nil => exact absurd rfl hne2
    | cons a b => rfl
  refine ⟨rfl, rfl, hw2, ?_⟩
  intro c2 h2
  rw [hw2] at h2
  cases h2
  exact List.take_left c1 _

/-- C9 witness: two consecutive writes of one `wrapT` record accumulate. -/
theorem claim_C9_witness :
    writeCSV wrapT (some [["a_count"], [""]]) [.consPtrNil .nil] =
      .ok [["a_count"], [""], ["a_count"], [""]] ∧
    ([["a_count"], [""], ["a_count"], [""]] : List (List String)).take 2 =
      [["a_count"], [""]] := by
  have h := claim_C9 wrapT [.consPtrNil .nil] [.consPtrNil .nil]
    [["a_count"], [""]] rfl (by decide)
  exact ⟨h.2.2.1, h.2.2.2 _ h.2.2.1⟩

/-- C10: a binding whose column position is negative or not below the row's
length never reads the row: the loop body behaves exactly as on an empty
row, falling back to the default value (then the kind's zero literal inside
the setter). -/
theorem claim_C10 (v : Vals) (info : FieldInfo) (row : List String)
    (h : info.columnIndex < 0 ∨ (row.length : Int) ≤ info.columnIndex) :
    applyInfo v info row = applyInfo v info [] ∧
    applyInfo v info row =
      match setAtPath v info.index (fun _ => runSetter info.kind info.defaultValue) with
      | .ok v' => .ok v'
      | .error e =>
        .error ("failed to set field value for field " ++ info.fieldName ++
          ": " ++ e) := by
  have h1 : ¬(0 ≤ info.columnIndex ∧ info.columnIndex < (row.length : Int)) := by
    push_neg
    intro h0
    rcases h with h | h
    · omega
    · omega
  have h2 : ¬(0 ≤ info.columnIndex ∧
      info.columnIndex < (([] : List String).length : Int)) := by
    push_neg
    intro h0
    simp only [List.length_nil, Nat.cast_zero]
    omega
  rw [applyInfo_oob v info row h1, applyInfo_oob v info [] h2]
  exact ⟨rfl, rfl⟩

/-- C10 witness: position 5 against a one-cell row falls back to the default
path without any out-of-bounds access. -/
theorem claim_C10_witness :
    applyInfo (.consScalar (.int 0) .nil) (FieldInfo.mk "Age" [0] 5 .kInt "7")
      ["x"] = applyInfo (.consScalar (.int 0) .nil)
        (FieldInfo.mk "Age" [0] 5 .kInt "7") [] ∧
    applyInfo (.consScalar (.int 0) .nil) (FieldInfo.mk "Age" [0] 5 .kInt "7")
      ["x"] = .ok (.consScalar (.int 7) .nil) := by
  have h := claim_C10 (.consScalar (.int 0) .nil)
    (FieldInfo.mk "Age" [0] 5 .kInt "7") ["x"] (by right; decide)
  exact ⟨h.1, by rw [h.2]; rfl⟩

end CsvSpec
